import Mathlib

/-!
Verification of the DAG-specification validator (`validators/dag_validator.py`).

The Python class `DAGValidator` is embedded shallowly: its two instance
fields `self.errors` / `self.warnings` become an explicit state record
`VState` threaded through every sub-check, Python dicts with optional keys
become structures of `Option` fields, and Python sets used only for
membership become `List String`.  Each Lean definition mirrors one Python
method of the source file.
-/

set_option maxHeartbeats 1000000

namespace DagVal

/-- One finding, i.e. one of the dicts appended to `self.errors` or
`self.warnings`.  The Python dicts use the keys `type`, `field`, `message`,
`line`, `details`; keys that a given dict omits are `none` here. -/
structure Finding where
  kind : String
  field : Option String
  message : String
  line : Option Nat
  details : Option String
deriving DecidableEq, Repr

/-- The validator's mutable accumulator state: `self.errors` and
`self.warnings` (both Python lists, appended at the end). -/
structure VState where
  errors : List Finding
  warnings : List Finding
deriving DecidableEq, Repr

/-- Source: `self.errors.append(f)` -/
def appendError (v : VState) (f : Finding) : VState :=
  { v with errors := v.errors ++ [f] }

/-- Source: `self.warnings.append(f)` -/
def appendWarning (v : VState) (f : Finding) : VState :=
  { v with warnings := v.warnings ++ [f] }

/-- The dict returned by `_build_result`:
`{'valid': len(self.errors) == 0, 'errors': self.errors, 'warnings': self.warnings}`. -/
structure VResult where
  valid : Bool
  errors : List Finding
  warnings : List Finding
deriving DecidableEq, Repr

/-- Source: `DAGValidator._build_result` -/
def buildResult (v : VState) : VResult :=
  { valid := v.errors.isEmpty, errors := v.errors, warnings := v.warnings }

/-- One task dict of the specification.  `task_id` is `none` when the key
`'task_id'` is absent (the code tests `'task_id' not in task`);
`operator_type` is `task.get('operator_type')`; `params` is the mapping at
key `'params'` (`none` = key absent); `parameters` is the mapping at key
`'parameters'`, which the data model allows but the validator never reads;
`dependencies` is `task.get('dependencies', [])`. -/
structure Task where
  task_id : Option String
  operator_type : Option String
  params : Option (List (String × String))
  parameters : Option (List (String × String))
  dependencies : List String
deriving DecidableEq, Repr

/-- One connection dict: `conn_id` is `none` when the key is absent,
`conn_type_present` records whether the key `'conn_type'` is present. -/
structure Connection where
  conn_id : Option String
  conn_type_present : Bool
deriving DecidableEq, Repr

/-- One variable dict: `key` is `none` when the key `'key'` is absent. -/
structure Variable where
  key : Option String
deriving DecidableEq, Repr

/-- A non-empty specification dict.  Every field models `dag_spec.get(k)`:
`none` means the key is absent or maps to Python `None`.  `tasks`,
`connections` and `variables` are read with `.get(k, [])`, modelled by
`Option.getD _ []` at the use sites. -/
structure DagSpec where
  dag_id : Option String
  description : Option String
  schedule : Option String
  start_date : Option String
  tasks : Option (List Task)
  connections : List Connection
  variables' : List Variable
deriving DecidableEq, Repr

/-- Source: `DAGValidator.VALID_OPERATORS` (a Python set; only membership is used). -/
def VALID_OPERATORS : List String :=
  ["BashOperator", "PythonOperator", "EmailOperator", "SimpleHttpOperator",
   "PostgresOperator", "MySqlOperator", "SqliteOperator", "MsSqlOperator",
   "OracleOperator", "S3FileTransformOperator", "S3ToRedshiftOperator",
   "RedshiftToS3Operator", "BigQueryOperator", "BigQueryCreateEmptyTableOperator",
   "GCSToGoogleDriveOperator", "SnowflakeOperator", "SparkSubmitOperator",
   "DatabricksSubmitRunOperator", "KubernetesPodOperator", "DockerOperator",
   "EmptyOperator", "BranchPythonOperator", "ShortCircuitOperator",
   "TriggerDagRunOperator", "ExternalTaskSensor", "HttpSensor",
   "S3KeySensor", "SqlSensor", "TimeDeltaSensor"]

/-- The string members of `DAGValidator.VALID_SCHEDULES` (the Python set also
contains `None`, which `_validate_schedule` has already returned on). -/
def VALID_SCHEDULES : List String :=
  ["@once", "@hourly", "@daily", "@weekly", "@monthly", "@yearly",
   "@annually", "None", "null"]

/-- One character of the class `[a-zA-Z0-9_-]`. -/
def isIdChar (c : Char) : Bool :=
  c.isAlpha || c.isDigit || c = '_' || c = '-'

/-- Whether `l₂` begins with `l₁`. -/
def listStartsWith : List Char → List Char → Bool
  | [], _ => true
  | _ :: _, [] => false
  | c :: cs, x :: xs => c = x && listStartsWith cs xs

/-- Python `str.strip()` / `str.lower()`, over the character list (the
ASCII fragment both operate on here). -/
def pyStrip (s : String) : String :=
  String.mk (((s.data.dropWhile Char.isWhitespace).reverse.dropWhile Char.isWhitespace).reverse)

def pyLower (s : String) : String :=
  String.mk (s.data.map Char.toLower)

/-- Source: `re.match(r'^[a-zA-Z0-9_-]+$', s)` as a Bool.  Python's `$` also matches
just before one newline at the very end of the string. -/
def matchesIdPattern (s : String) : Bool :=
  let core := if s.data.getLast? = some '\n' then s.data.dropLast else s.data
  !core.isEmpty && core.all isIdChar

/-- Source: `str(n)` for the Nat indices interpolated into messages. -/
def natStr (n : Nat) : String := Nat.repr n

/-! ### `_validate_required_fields`, `_validate_dag_id` -/

def requiredFieldFinding (field : String) : Finding :=
  ⟨"field", some field, "Required field \"" ++ (field ++ "\" is missing or null"), none, none⟩

def scheduleNoneFinding : Finding :=
  ⟨"field", some "schedule", "Schedule is None - DAG will not run automatically", none, none⟩

/-- Source: `_validate_required_fields`: the loop over
`['dag_id', 'description', 'schedule', 'tasks']`, unrolled.  A field is
"absent or None" exactly when its `Option` is `none`. -/
def validateRequiredFields (spec : DagSpec) (v : VState) : VState :=
  let v := if spec.dag_id.isNone then appendError v (requiredFieldFinding "dag_id") else v
  let v := if spec.description.isNone then appendError v (requiredFieldFinding "description") else v
  let v := if spec.schedule.isNone then appendWarning v scheduleNoneFinding else v
  if spec.tasks.isNone then appendError v (requiredFieldFinding "tasks") else v

def dagIdInvalidFinding (dag_id : String) : Finding :=
  ⟨"format", some "dag_id",
   "DAG ID \"" ++ (dag_id ++ "\" contains invalid characters. Use only letters, numbers, underscores, and hyphens."),
   none, none⟩

def dagIdTooLongFinding (dag_id : String) : Finding :=
  ⟨"format", some "dag_id",
   "DAG ID is too long (" ++ (natStr dag_id.length ++ " chars). Maximum is 100 characters."),
   none, none⟩

def dagIdLowercaseFinding (dag_id : String) : Finding :=
  ⟨"format", some "dag_id",
   "DAG ID should be lowercase for consistency. Consider: \"" ++ (pyLower dag_id ++ "\""),
   none, none⟩

/-- Source: `_validate_dag_id`.  `if not dag_id: return` fires on an absent id and
on the empty string. -/
def validateDagId (dag_id : Option String) (v : VState) : VState :=
  match dag_id with
  | none => v
  | some s =>
    if s = "" then v
    else
      let v := if matchesIdPattern s then v else appendError v (dagIdInvalidFinding s)
      let v := if s.length > 100 then appendError v (dagIdTooLongFinding s) else v
      if s = pyLower s then v else appendWarning v (dagIdLowercaseFinding s)

/-! ### The cron regex of `_validate_schedule` (source line 245)

`^(@(yearly|annually|monthly|weekly|daily|hourly|reboot))|(@every (\d+(ns|us|Âµs|ms|s|m|h))+)|((((\d+,)+\d+|(\d+(\/|-)\d+)|\d+|\*) ?){5,7})$`

Alternation binds loosest, so `^` belongs to the first branch only and `$`
to the last one; with `re.match` all three branches are anchored at the
start, and only the third must also reach the end of the string (`$` is
modelled as end-of-string).  Sub-matchers return the list of all possible
remainders, which models regex backtracking. -/

/-- Remainders after consuming one or more leading decimal digits (`\d+`). -/
def digitSplits : List Char → List (List Char)
  | [] => []
  | c :: cs => if c.isDigit then cs :: digitSplits cs else []

/-- Remainders after `\d+,`. -/
def numCommaSplits (cs : List Char) : List (List Char) :=
  (digitSplits cs).filterMap (fun r =>
    match r with
    | ',' :: r' => some r'
    | _ => none)

/-- Remainders after one or more repetitions of `step`; `fuel` bounds the
repetition count (every step here consumes at least one character). -/
def plusSplits (step : List Char → List (List Char)) : Nat → List Char → List (List Char)
  | 0, _ => []
  | n + 1, cs =>
    let one := step cs
    one ++ one.flatMap (plusSplits step n)

/-- Remainders after `(\d+,)+\d+`. -/
def commaListSplits (cs : List Char) : List (List Char) :=
  (plusSplits numCommaSplits cs.length cs).flatMap digitSplits

/-- Remainders after `\d+(\/|-)\d+`. -/
def rangeSplits (cs : List Char) : List (List Char) :=
  (digitSplits cs).flatMap (fun r =>
    match r with
    | '/' :: r' => digitSplits r'
    | '-' :: r' => digitSplits r'
    | _ => [])

/-- Remainders after one cron item `((\d+,)+\d+|(\d+(\/|-)\d+)|\d+|\*)`. -/
def cronItemSplits (cs : List Char) : List (List Char) :=
  commaListSplits cs ++ rangeSplits cs ++ digitSplits cs ++
    (match cs with
     | '*' :: r => [r]
     | _ => [])

/-- Remainders after one cron item and an optional trailing space (`... ?`). -/
def cronItemSpaceSplits (cs : List Char) : List (List Char) :=
  (cronItemSplits cs).flatMap (fun r =>
    match r with
    | ' ' :: r' => [r, r']
    | _ => [r])

/-- Remainders after exactly `n` repetitions of `step`. -/
def repSplits (step : List Char → List (List Char)) : Nat → List Char → List (List Char)
  | 0, cs => [cs]
  | n + 1, cs => (step cs).flatMap (repSplits step n)

/-- Source: `re.match(cron_pattern, s)` as a Bool. -/
def cronPatternMatch (s : String) : Bool :=
  (["@yearly", "@annually", "@monthly", "@weekly", "@daily", "@hourly", "@reboot"].any
    (fun p => listStartsWith p.data s.data)) ||
  (listStartsWith "@every ".data s.data &&
    (digitSplits (s.data.drop 7)).any (fun r =>
      ["ns", "us", "Âµs", "ms", "s", "m", "h"].any (fun u => listStartsWith u.data r))) ||
  ([5, 6, 7].any (fun n => (repSplits cronItemSpaceSplits n s.data).any List.isEmpty))

def scheduleCronFinding (schedule : String) : Finding :=
  ⟨"format", some "schedule",
   "Schedule \"" ++ (schedule ++ "\" may not be a valid cron expression or preset"),
   none, none⟩

/-- Source: `_validate_schedule`.  `none` models both an absent key and Python
`None`; the code also returns on the strings `'None'` and `'null'` and on
the preset members of `VALID_SCHEDULES`, and otherwise warns unless the
stripped string matches the cron pattern. -/
def validateSchedule (schedule : Option String) (v : VState) : VState :=
  match schedule with
  | none => v
  | some s =>
    if s = "None" || s = "null" then v
    else if s ∈ VALID_SCHEDULES then v
    else if cronPatternMatch (pyStrip s) then v
    else appendWarning v (scheduleCronFinding s)

/-! ### `_validate_start_date` and its use of `datetime.fromisoformat` -/

/-- Numeric value of a decimal digit character. -/
def digitVal (c : Char) : Nat := c.toNat - 48

def isLeapYear (y : Nat) : Bool := y % 4 = 0 && (y % 100 ≠ 0 || y % 400 = 0)

def daysInMonth (y m : Nat) : Nat :=
  if m = 2 then (if isLeapYear y then 29 else 28)
  else if m = 4 || m = 6 || m = 9 || m = 11 then 30
  else 31

/-- Two decimal digits and the rest, else `none`. -/
def twoDigits : List Char → Option (Nat × List Char)
  | a :: b :: rest =>
    if a.isDigit && b.isDigit then some (digitVal a * 10 + digitVal b, rest) else none
  | _ => none

/-- CPython's `_parse_hh_mm_ss_ff`: `HH[:MM[:SS[.fff[fff]]]]` with no range
checks; the fraction must have exactly 3 or 6 digits.  Returns
(hour, minute, second, microsecond). -/
def parseHmsf (cs : List Char) : Option (Nat × Nat × Nat × Nat) :=
  match twoDigits cs with
  | none => none
  | some (h, rest) =>
    match rest with
    | [] => some (h, 0, 0, 0)
    | ':' :: r1 =>
      match twoDigits r1 with
      | none => none
      | some (m, rest2) =>
        match rest2 with
        | [] => some (h, m, 0, 0)
        | ':' :: r2 =>
          match twoDigits r2 with
          | none => none
          | some (s, rest3) =>
            match rest3 with
            | [] => some (h, m, s, 0)
            | '.' :: fr =>
              if fr.length = 3 && fr.all Char.isDigit then
                some (h, m, s, 1000 * fr.foldl (fun a c => a * 10 + digitVal c) 0)
              else if fr.length = 6 && fr.all Char.isDigit then
                some (h, m, s, fr.foldl (fun a c => a * 10 + digitVal c) 0)
              else none
            | _ => none
        | _ => none
    | _ => none

/-- Split a char list at the first occurrence of `c`. -/
def splitAtChar (c : Char) : List Char → Option (List Char × List Char)
  | [] => none
  | x :: xs =>
    if x = c then some ([], xs)
    else
      match splitAtChar c xs with
      | some (a, b) => some (x :: a, b)
      | none => none

/-- The time-of-day part of `datetime.fromisoformat` (CPython 3.7–3.10):
the tail is split at the first `-` (else the first `+`) into clock time and
a timezone offset; the clock time must pass the datetime constructor's
range checks, and the offset (whose text after the sign must have length
5, 8 or 15) must be strictly less than 24 hours. -/
def isoTimeOk (cs : List Char) : Bool :=
  let p :=
    match splitAtChar '-' cs with
    | some (a, b) => (a, some b)
    | none =>
      match splitAtChar '+' cs with
      | some (a, b) => (a, some b)
      | none => (cs, none)
  (match parseHmsf p.1 with
   | some (h, m, s, _) => h ≤ 23 && m ≤ 59 && s ≤ 59
   | none => false) &&
  (match p.2 with
   | none => true
   | some tzs =>
     (tzs.length = 5 || tzs.length = 8 || tzs.length = 15) &&
     (match parseHmsf tzs with
      | some (th, tm, ts, _) => th * 3600 + tm * 60 + ts < 86400
      | none => false))

/-- Models the documented `datetime.fromisoformat` grammar of CPython
3.7–3.10: `YYYY-MM-DD[*HH[:MM[:SS[.fff[fff]]]][±HH:MM[:SS[.ffffff]]]]`,
where `*` is any single separator character.  The repository pins no
Python version, and newer runtimes (3.11+) accept a superset of this
grammar (basic-format dates, week dates, `Z` suffixes, colon-free offsets,
more fraction shapes), so this executable stand-in for the external call
is relied on only where every CPython version agrees with it: it accepts
every strict `YYYY-MM-DD` calendar date, and it agrees with all versions
on the concrete strings evaluated in this file.  In particular it is not
date-only: full datetime strings are accepted on every runtime. -/
def fromisoformatOk (s : String) : Bool :=
  match s.data with
  | y1 :: y2 :: y3 :: y4 :: '-' :: m1 :: m2 :: '-' :: d1 :: d2 :: rest =>
    ([y1, y2, y3, y4, m1, m2, d1, d2].all Char.isDigit) &&
    (let y := ((digitVal y1 * 10 + digitVal y2) * 10 + digitVal y3) * 10 + digitVal y4
     let m := digitVal m1 * 10 + digitVal m2
     let d := digitVal d1 * 10 + digitVal d2
     1 ≤ y && 1 ≤ m && m ≤ 12 && 1 ≤ d && d ≤ daysInMonth y m) &&
    (match rest with
     | [] => true
     | _ :: timecs => isoTimeOk timecs)
  | _ => false

def startDateMissingFinding : Finding :=
  ⟨"field", some "start_date", "No start_date specified. Will use default.", none, none⟩

def startDateInvalidFinding (start_date : String) : Finding :=
  ⟨"format", some "start_date",
   "Invalid date format \"" ++ (start_date ++ "\". Use YYYY-MM-DD."), none, none⟩

/-- Source: `_validate_start_date`.  `if not start_date` fires on an absent value
and on the empty string. -/
def validateStartDate (start_date : Option String) (v : VState) : VState :=
  match start_date with
  | none => appendWarning v startDateMissingFinding
  | some s =>
    if s = "" then appendWarning v startDateMissingFinding
    else if fromisoformatOk s then v
    else appendError v (startDateInvalidFinding s)

/-! ### `_validate_tasks`, `_validate_connections`, `_validate_variables` -/

def emptyTasksFinding : Finding :=
  ⟨"structure", some "tasks", "DAG must contain at least one task", none, none⟩

def taskMissingIdFinding (i : Nat) : Finding :=
  ⟨"field", some ("tasks[" ++ (natStr i ++ "].task_id")),
   "Task at index " ++ (natStr i ++ " is missing task_id"), none, none⟩

def taskDupFinding (tid : String) : Finding :=
  ⟨"duplicate", some "task_id", "Duplicate task_id: \"" ++ (tid ++ "\""), none, none⟩

def taskIdFormatFinding (i : Nat) (tid : String) : Finding :=
  ⟨"format", some ("tasks[" ++ (natStr i ++ "].task_id")),
   "Task ID \"" ++ (tid ++ "\" contains invalid characters"), none, none⟩

def taskMissingOpFinding (i : Nat) (tid : String) : Finding :=
  ⟨"field", some ("tasks[" ++ (natStr i ++ "].operator_type")),
   "Task \"" ++ (tid ++ "\" is missing operator_type"), none, none⟩

def taskUnknownOpFinding (i : Nat) (op : String) : Finding :=
  ⟨"operator", some ("tasks[" ++ (natStr i ++ "].operator_type")),
   "Unknown operator type: \"" ++ (op ++ "\". May not be supported."), none, none⟩

def taskParamsFinding (i : Nat) (tid : String) : Finding :=
  ⟨"params", some ("tasks[" ++ (natStr i ++ "].params")),
   "Task \"" ++ (tid ++ "\" has no parameters. Operator may require configuration."), none, none⟩

/-- Truthiness of `task.get('operator_type')` (`if not operator_type`). -/
def opTruthy (t : Task) : Bool :=
  match t.operator_type with
  | none => false
  | some s => !(s = "")

/-- Falsiness of `task.get('params', {})` (`not params`). -/
def paramsFalsy (t : Task) : Bool :=
  match t.params with
  | none => true
  | some l => l.isEmpty

/-- The body of the `for i, task in enumerate(tasks)` loop of
`_validate_tasks`; `seen` is the running `task_ids` set. -/
def validateTasksAux : Nat → List String → List Task → VState → VState
  | _, _, [], v => v
  | i, seen, t :: ts, v =>
    match t.task_id with
    | none => validateTasksAux (i + 1) seen ts (appendError v (taskMissingIdFinding i))
    | some tid =>
      let v := if tid ∈ seen then appendError v (taskDupFinding tid) else v
      let v := if matchesIdPattern tid then v else appendError v (taskIdFormatFinding i tid)
      let v :=
        match t.operator_type with
        | none => appendError v (taskMissingOpFinding i tid)
        | some op =>
          if op = "" then appendError v (taskMissingOpFinding i tid)
          else if op ∈ VALID_OPERATORS then v
          else appendWarning v (taskUnknownOpFinding i op)
      let v := if opTruthy t && paramsFalsy t then appendWarning v (taskParamsFinding i tid) else v
      validateTasksAux (i + 1) (tid :: seen) ts v

/-- Source: `_validate_tasks` -/
def validateTasks (tasks : List Task) (v : VState) : VState :=
  if tasks.isEmpty then appendError v emptyTasksFinding
  else validateTasksAux 0 [] tasks v

def connMissingIdFinding (i : Nat) : Finding :=
  ⟨"field", some ("connections[" ++ (natStr i ++ "].conn_id")),
   "Connection at index " ++ (natStr i ++ " is missing conn_id"), none, none⟩

def connDupFinding (cid : String) : Finding :=
  ⟨"duplicate", some "conn_id", "Duplicate connection ID: \"" ++ (cid ++ "\""), none, none⟩

def connMissingTypeFinding (i : Nat) (cid : String) : Finding :=
  ⟨"field", some ("connections[" ++ (natStr i ++ "].conn_type")),
   "Connection \"" ++ (cid ++ "\" is missing conn_type"), none, none⟩

/-- The loop of `_validate_connections`; `seen` is the running `conn_ids` set. -/
def validateConnectionsAux : Nat → List String → List Connection → VState → VState
  | _, _, [], v => v
  | i, seen, c :: cs, v =>
    match c.conn_id with
    | none => validateConnectionsAux (i + 1) seen cs (appendError v (connMissingIdFinding i))
    | some cid =>
      let v := if cid ∈ seen then appendError v (connDupFinding cid) else v
      let v := if c.conn_type_present then v else appendError v (connMissingTypeFinding i cid)
      validateConnectionsAux (i + 1) (cid :: seen) cs v

/-- Source: `_validate_connections` -/
def validateConnections (connections : List Connection) (v : VState) : VState :=
  validateConnectionsAux 0 [] connections v

def varMissingKeyFinding (i : Nat) : Finding :=
  ⟨"field", some ("variables[" ++ (natStr i ++ "].key")),
   "Variable at index " ++ (natStr i ++ " is missing key"), none, none⟩

def varDupFinding (key : String) : Finding :=
  ⟨"duplicate", some "variable_key", "Duplicate variable key: \"" ++ (key ++ "\""), none, none⟩

/-- The loop of `_validate_variables`; duplicates are a warning. -/
def validateVariablesAux : Nat → List String → List Variable → VState → VState
  | _, _, [], v => v
  | i, seen, x :: xs, v =>
    match x.key with
    | none => validateVariablesAux (i + 1) seen xs (appendError v (varMissingKeyFinding i))
    | some key =>
      let v := if key ∈ seen then appendWarning v (varDupFinding key) else v
      validateVariablesAux (i + 1) (key :: seen) xs v

/-- Source: `_validate_variables` -/
def validateVariables (vars : List Variable) (v : VState) : VState :=
  validateVariablesAux 0 [] vars v

/-! ### `_validate_dependencies` and `_has_circular_dependencies` -/

def depNonExistFinding (tid dep : String) : Finding :=
  ⟨"dependency", some "dependencies",
   "Task \"" ++ (tid ++ ("\" depends on non-existent task \"" ++ (dep ++ "\""))), none, none⟩

def depSelfFinding (tid : String) : Finding :=
  ⟨"dependency", some "dependencies",
   "Task \"" ++ (tid ++ "\" cannot depend on itself"), none, none⟩

def circularFinding : Finding :=
  ⟨"dependency", some "dependencies", "Circular dependency detected in task graph", none, none⟩

/-- Source: `{task['task_id'] for task in tasks if 'task_id' in task}`
(a Python set; only membership is used). -/
def taskIdSet (tasks : List Task) : List String :=
  tasks.filterMap (fun t => t.task_id)

/-- The `for dep in dependencies` loop of `_validate_dependencies`. -/
def validateDepsList (ids : List String) (tid : String) : List String → VState → VState
  | [], v => v
  | dep :: deps, v =>
    let v := if dep ∈ ids then v else appendError v (depNonExistFinding tid dep)
    let v := if dep = tid then appendError v (depSelfFinding tid) else v
    validateDepsList ids tid deps v

/-- The `for task in tasks` loop of `_validate_dependencies`. -/
def validateDepsTasks (ids : List String) : List Task → VState → VState
  | [], v => v
  | t :: ts, v =>
    match t.task_id with
    | none => validateDepsTasks ids ts v
    | some tid => validateDepsTasks ids ts (validateDepsList ids tid t.dependencies v)

/-- Insert with Python-dict semantics: overwrite the value of an existing
key in place, else append a new key at the end (preserving the dict's
insertion order). -/
def dictInsert (g : List (String × List String)) (k : String) (val : List String) :
    List (String × List String) :=
  match g with
  | [] => [(k, val)]
  | (k', v') :: rest => if k' = k then (k', val) :: rest else (k', v') :: dictInsert rest k val

/-- The adjacency dict built by `_has_circular_dependencies`: later tasks
with the same `task_id` overwrite the dependencies of earlier ones. -/
def buildGraph (tasks : List Task) : List (String × List String) :=
  tasks.foldl (fun g t =>
    match t.task_id with
    | none => g
    | some tid => dictInsert g tid t.dependencies) []

/-- Source: `graph.get(node, [])` -/
def graphGet (g : List (String × List String)) (node : String) : List String :=
  match g with
  | [] => []
  | (k, v) :: rest => if k = node then v else graphGet rest node

/-- The two mutable sets of the DFS: `visited` and `rec_stack`.
`rec_stack` is represented as a list; only membership, addition and removal
of the most recently added node are used. -/
structure DfsState where
  visited : List String
  recStack : List String
deriving DecidableEq, Repr

/-- The `for neighbor in graph.get(node, [])` loop of `has_cycle`, with the
recursive call abstracted as `f`. -/
def dfsLoop (f : String → DfsState → Bool × DfsState) :
    List String → DfsState → Bool × DfsState
  | [], st => (false, st)
  | nb :: rest, st =>
    if nb ∈ st.visited then
      if nb ∈ st.recStack then (true, st) else dfsLoop f rest st
    else
      match f nb st with
      | (true, st') => (true, st')
      | (false, st') => dfsLoop f rest st'

/-- The recursive `has_cycle(node)`: mark the node visited and on the
recursion stack, scan its neighbors, and on a cycle-free return remove the
node from the recursion stack again.  `fuel` bounds the recursion depth;
`hasCircularDependencies` supplies enough fuel that the `0` case is never
reached. -/
def dfsVisit (g : List (String × List String)) : Nat → String → DfsState → Bool × DfsState
  | 0, _, st => (true, st)
  | fuel + 1, node, st =>
    let st1 : DfsState := ⟨node :: st.visited, node :: st.recStack⟩
    match dfsLoop (dfsVisit g fuel) (graphGet g node) st1 with
    | (true, st2) => (true, st2)
    | (false, st2) => (false, ⟨st2.visited, st2.recStack.erase node⟩)

/-- The `for node in graph` loop of `_has_circular_dependencies`. -/
def dfsRoots (g : List (String × List String)) (fuel : Nat) :
    List String → DfsState → Bool
  | [], _ => false
  | n :: rest, st =>
    if n ∈ st.visited then dfsRoots g fuel rest st
    else
      match dfsVisit g fuel n st with
      | (true, _) => true
      | (false, st') => dfsRoots g fuel rest st'

/-- Source: `_has_circular_dependencies` -/
def hasCircularDependencies (tasks : List Task) : Bool :=
  let g := buildGraph tasks
  dfsRoots g (g.length + 1) (g.map Prod.fst) ⟨[], []⟩

/-- Source: `_validate_dependencies` -/
def validateDependencies (tasks : List Task) (v : VState) : VState :=
  if tasks.isEmpty then v
  else
    let v := validateDepsTasks (taskIdSet tasks) tasks v
    if hasCircularDependencies tasks then appendError v circularFinding else v

/-! ### `validate_structure` -/

def rootFinding : Finding :=
  ⟨"structure", some "root", "DAG specification is empty", none, none⟩

/-- Source: `DAGValidator.validate_structure`.  The argument `_v₀` is the validator
instance's accumulator state left over from previous calls; the method
resets it first (`self.errors = []`, `self.warnings = []`).  `none` models
a falsy `dag_spec` (absent, `None`, or the empty dict); the method then
reports the single `root` error and returns without running sub-checks. -/
def validateStructure (_v₀ : VState) (dag_spec : Option DagSpec) : VResult × VState :=
  let v : VState := ⟨[], []⟩
  match dag_spec with
  | none =>
    let v := appendError v rootFinding
    (buildResult v, v)
  | some spec =>
    let v := validateRequiredFields spec v
    let v := validateDagId spec.dag_id v
    let v := validateSchedule spec.schedule v
    let v := validateStartDate spec.start_date v
    let v := validateTasks (spec.tasks.getD []) v
    let v := validateConnections spec.connections v
    let v := validateVariables spec.variables' v
    let v := validateDependencies (spec.tasks.getD []) v
    (buildResult v, v)

/-! ### `validate_syntax` -/

/-- The abstraction of a successfully parsed Python module that
`_check_dag_structure` inspects: the three signals its single AST walk can
observe. -/
structure PyAst where
  hasAirflowImportFrom : Bool
  importsDagName : Bool
  callsDagConstructor : Bool
  callsOperatorOrSensor : Bool
deriving DecidableEq, Repr

/-- The outcome of the external `ast.parse(dag_code)`, which is not part of
this module: success (abstracted to the signals the structural scan reads),
a `SyntaxError` (with `lineno`, `msg`, `text`), or any other exception. -/
inductive ParseOutcome where
  | ok (tree : PyAst)
  | syntaxErr (lineno : Option Nat) (msg : String) (text : Option String)
  | exc (msg : String)
deriving DecidableEq, Repr

def noImportWarn : Finding :=
  ⟨"structure", none,
   "No Airflow imports detected. Ensure you import from airflow modules.", none, none⟩

def noDagWarn : Finding :=
  ⟨"structure", none,
   "No DAG definition found. A DAG object must be instantiated.", none, none⟩

def noTasksWarn : Finding :=
  ⟨"structure", none,
   "No task operators detected. DAG should contain at least one task.", none, none⟩

/-- Source: `_check_dag_structure`: one warning per missing signal.  A `DAG` name
in an airflow import or a call of a symbol named `DAG` both set
`has_dag_definition`. -/
def checkDagStructure (tree : PyAst) (v : VState) : VState :=
  let has_dag_import := tree.hasAirflowImportFrom
  let has_dag_definition :=
    (tree.hasAirflowImportFrom && tree.importsDagName) || tree.callsDagConstructor
  let has_tasks := tree.callsOperatorOrSensor
  let v := if has_dag_import then v else appendWarning v noImportWarn
  let v := if has_dag_definition then v else appendWarning v noDagWarn
  if has_tasks then v else appendWarning v noTasksWarn

def emptyCodeFinding : Finding :=
  ⟨"syntax", none, "DAG code is empty", some 0, none⟩

/-- The error dict built in the `except SyntaxError` branch:
`f"Syntax error at line {e.lineno}: {e.msg}"`, `'line': e.lineno or 0`,
`'details': str(e.text).strip() if e.text else None`. -/
def syntaxErrFinding (lineno : Option Nat) (msg : String) (text : Option String) : Finding :=
  ⟨"syntax", none,
   "Syntax error at line " ++
     ((match lineno with
       | some n => natStr n
       | none => "None") ++ (": " ++ msg)),
   some (lineno.getD 0),
   match text with
   | none => none
   | some t => if t = "" then none else some (pyStrip t)⟩

def excFinding (msg : String) : Finding :=
  ⟨"validation", none, "Validation error: " ++ msg, some 0, none⟩

/-- Source: `DAGValidator.validate_syntax`.  `_v₀` is the leftover instance state
(reset first); `parse` stands for the external `ast.parse(dag_code)`.  An
empty or whitespace-only source short-circuits before the parser runs. -/
def validateSyntaxCall (_v₀ : VState) (dag_code : String) (parse : ParseOutcome) :
    VResult × VState :=
  let v : VState := ⟨[], []⟩
  if dag_code = "" || pyStrip dag_code = "" then
    let v := appendError v emptyCodeFinding
    (buildResult v, v)
  else
    match parse with
    | ParseOutcome.ok tree =>
      let v := checkDagStructure tree v
      (buildResult v, v)
    | ParseOutcome.syntaxErr lineno msg text =>
      let v := appendError v (syntaxErrFinding lineno msg text)
      (buildResult v, v)
    | ParseOutcome.exc msg =>
      let v := appendError v (excFinding msg)
      (buildResult v, v)

/-! ## Proof layer

Each sub-check only appends findings, and what it appends does not depend
on the incoming accumulator state.  The lists appended by one call are
spelled out below as plain list expressions (`...Errors` / `...Warnings`),
and each `..._eq` lemma proves that the state-threaded code equals
"old state ++ contribution". -/

def reqFieldsErrors (spec : DagSpec) : List Finding :=
  (if spec.dag_id.isNone then [requiredFieldFinding "dag_id"] else []) ++
  (if spec.description.isNone then [requiredFieldFinding "description"] else []) ++
  (if spec.tasks.isNone then [requiredFieldFinding "tasks"] else [])

def reqFieldsWarnings (spec : DagSpec) : List Finding :=
  if spec.schedule.isNone then [scheduleNoneFinding] else []

theorem validateRequiredFields_eq (spec : DagSpec) (v : VState) :
    validateRequiredFields spec v =
      ⟨v.errors ++ reqFieldsErrors spec, v.warnings ++ reqFieldsWarnings spec⟩ := by
  unfold validateRequiredFields reqFieldsErrors reqFieldsWarnings
  cases spec.dag_id <;> cases spec.description <;> cases spec.schedule <;>
    cases spec.tasks <;> simp [appendError, appendWarning]

def dagIdErrors (dag_id : Option String) : List Finding :=
  match dag_id with
  | none => []
  | some s =>
    if s = "" then []
    else
      (if matchesIdPattern s then [] else [dagIdInvalidFinding s]) ++
      (if s.length > 100 then [dagIdTooLongFinding s] else [])

def dagIdWarnings (dag_id : Option String) : List Finding :=
  match dag_id with
  | none => []
  | some s =>
    if s = "" then []
    else if s = pyLower s then [] else [dagIdLowercaseFinding s]

theorem validateDagId_eq (dag_id : Option String) (v : VState) :
    validateDagId dag_id v =
      ⟨v.errors ++ dagIdErrors dag_id, v.warnings ++ dagIdWarnings dag_id⟩ := by
  unfold validateDagId dagIdErrors dagIdWarnings
  cases dag_id with
  | none => simp
  | some s => dsimp only; split_ifs <;> simp [appendError, appendWarning]

def scheduleWarnings (schedule : Option String) : List Finding :=
  match schedule with
  | none => []
  | some s =>
    if s = "None" || s = "null" then []
    else if s ∈ VALID_SCHEDULES then []
    else if cronPatternMatch (pyStrip s) then []
    else [scheduleCronFinding s]

theorem validateSchedule_eq (schedule : Option String) (v : VState) :
    validateSchedule schedule v = ⟨v.errors, v.warnings ++ scheduleWarnings schedule⟩ := by
  unfold validateSchedule scheduleWarnings
  cases schedule with
  | none => simp
  | some s => dsimp only; split_ifs <;> simp [appendWarning]

def startDateErrors (start_date : Option String) : List Finding :=
  match start_date with
  | none => []
  | some s =>
    if s = "" then []
    else if fromisoformatOk s then []
    else [startDateInvalidFinding s]

def startDateWarnings (start_date : Option String) : List Finding :=
  match start_date with
  | none => [startDateMissingFinding]
  | some s => if s = "" then [startDateMissingFinding] else []

theorem validateStartDate_eq (start_date : Option String) (v : VState) :
    validateStartDate start_date v =
      ⟨v.errors ++ startDateErrors start_date, v.warnings ++ startDateWarnings start_date⟩ := by
  unfold validateStartDate startDateErrors startDateWarnings
  cases start_date with
  | none => simp [appendWarning]
  | some s => dsimp only; split_ifs <;> simp [appendError, appendWarning]

def opErrors (i : Nat) (tid : String) (t : Task) : List Finding :=
  match t.operator_type with
  | none => [taskMissingOpFinding i tid]
  | some op => if op = "" then [taskMissingOpFinding i tid] else []

def opWarnings (i : Nat) (t : Task) : List Finding :=
  match t.operator_type with
  | none => []
  | some op =>
    if op = "" then []
    else if op ∈ VALID_OPERATORS then []
    else [taskUnknownOpFinding i op]

def taskStepErrors (seen : List String) (i : Nat) (tid : String) (t : Task) : List Finding :=
  (if tid ∈ seen then [taskDupFinding tid] else []) ++
  (if matchesIdPattern tid then [] else [taskIdFormatFinding i tid]) ++
  opErrors i tid t

def taskStepWarnings (i : Nat) (tid : String) (t : Task) : List Finding :=
  opWarnings i t ++
  (if opTruthy t && paramsFalsy t then [taskParamsFinding i tid] else [])

def tasksAuxErrors : Nat → List String → List Task → List Finding
  | _, _, [] => []
  | i, seen, t :: ts =>
    match t.task_id with
    | none => taskMissingIdFinding i :: tasksAuxErrors (i + 1) seen ts
    | some tid => taskStepErrors seen i tid t ++ tasksAuxErrors (i + 1) (tid :: seen) ts

def tasksAuxWarnings : Nat → List Task → List Finding
  | _, [] => []
  | i, t :: ts =>
    match t.task_id with
    | none => tasksAuxWarnings (i + 1) ts
    | some tid => taskStepWarnings i tid t ++ tasksAuxWarnings (i + 1) ts

theorem validateTasksAux_eq (ts : List Task) :
    ∀ (i : Nat) (seen : List String) (v : VState),
      validateTasksAux i seen ts v =
        ⟨v.errors ++ tasksAuxErrors i seen ts, v.warnings ++ tasksAuxWarnings i ts⟩ := by
  induction ts with
  | nil => intro i seen v; simp [validateTasksAux, tasksAuxErrors, tasksAuxWarnings]
  | cons t ts ih =>
    intro i seen v
    cases htid : t.task_id with
    | none =>
      simp [validateTasksAux, tasksAuxErrors, tasksAuxWarnings, htid, ih, appendError]
    | some tid =>
      simp only [validateTasksAux, tasksAuxErrors, tasksAuxWarnings, htid, ih,
        taskStepErrors, taskStepWarnings, opErrors, opWarnings]
      cases hop : t.operator_type <;> dsimp only <;>
        split_ifs <;> simp_all [appendError, appendWarning]

def tasksErrors (tasks : List Task) : List Finding :=
  if tasks.isEmpty then [emptyTasksFinding] else tasksAuxErrors 0 [] tasks

def tasksWarnings (tasks : List Task) : List Finding :=
  if tasks.isEmpty then [] else tasksAuxWarnings 0 tasks

theorem validateTasks_eq (tasks : List Task) (v : VState) :
    validateTasks tasks v =
      ⟨v.errors ++ tasksErrors tasks, v.warnings ++ tasksWarnings tasks⟩ := by
  unfold validateTasks tasksErrors tasksWarnings
  split_ifs with h
  · simp [appendError]
  · simp [validateTasksAux_eq]

def connStepErrors (seen : List String) (i : Nat) (cid : String) (c : Connection) : List Finding :=
  (if cid ∈ seen then [connDupFinding cid] else []) ++
  (if c.conn_type_present then [] else [connMissingTypeFinding i cid])

def connsAuxErrors : Nat → List String → List Connection → List Finding
  | _, _, [] => []
  | i, seen, c :: cs =>
    match c.conn_id with
    | none => connMissingIdFinding i :: connsAuxErrors (i + 1) seen cs
    | some cid => connStepErrors seen i cid c ++ connsAuxErrors (i + 1) (cid :: seen) cs

theorem validateConnectionsAux_eq (cs : List Connection) :
    ∀ (i : Nat) (seen : List String) (v : VState),
      validateConnectionsAux i seen cs v =
        ⟨v.errors ++ connsAuxErrors i seen cs, v.warnings⟩ := by
  induction cs with
  | nil => intro i seen v; simp [validateConnectionsAux, connsAuxErrors]
  | cons c cs ih =>
    intro i seen v
    cases hcid : c.conn_id with
    | none => simp [validateConnectionsAux, connsAuxErrors, hcid, ih, appendError]
    | some cid =>
      simp only [validateConnectionsAux, connsAuxErrors, hcid, ih, connStepErrors]
      split_ifs <;> simp [appendError]

def connsErrors (cs : List Connection) : List Finding := connsAuxErrors 0 [] cs

theorem validateConnections_eq (cs : List Connection) (v : VState) :
    validateConnections cs v = ⟨v.errors ++ connsErrors cs, v.warnings⟩ := by
  simp [validateConnections, connsErrors, validateConnectionsAux_eq]

def varsAuxErrors : Nat → List Variable → List Finding
  | _, [] => []
  | i, x :: xs =>
    match x.key with
    | none => varMissingKeyFinding i :: varsAuxErrors (i + 1) xs
    | some _ => varsAuxErrors (i + 1) xs

def varsAuxWarnings : Nat → List String → List Variable → List Finding
  | _, _, [] => []
  | i, seen, x :: xs =>
    match x.key with
    | none => varsAuxWarnings (i + 1) seen xs
    | some key =>
      (if key ∈ seen then [varDupFinding key] else []) ++ varsAuxWarnings (i + 1) (key :: seen) xs

theorem validateVariablesAux_eq (xs : List Variable) :
    ∀ (i : Nat) (seen : List String) (v : VState),
      validateVariablesAux i seen xs v =
        ⟨v.errors ++ varsAuxErrors i xs, v.warnings ++ varsAuxWarnings i seen xs⟩ := by
  induction xs with
  | nil => intro i seen v; simp [validateVariablesAux, varsAuxErrors, varsAuxWarnings]
  | cons x xs ih =>
    intro i seen v
    cases hk : x.key with
    | none => simp [validateVariablesAux, varsAuxErrors, varsAuxWarnings, hk, ih, appendError]
    | some key =>
      simp only [validateVariablesAux, varsAuxErrors, varsAuxWarnings, hk, ih]
      split_ifs <;> simp [appendWarning]

def varsErrors (xs : List Variable) : List Finding := varsAuxErrors 0 xs

def varsWarnings (xs : List Variable) : List Finding := varsAuxWarnings 0 [] xs

theorem validateVariables_eq (xs : List Variable) (v : VState) :
    validateVariables xs v = ⟨v.errors ++ varsErrors xs, v.warnings ++ varsWarnings xs⟩ := by
  simp [validateVariables, varsErrors, varsWarnings, validateVariablesAux_eq]

def depsListErrors (ids : List String) (tid : String) : List String → List Finding
  | [] => []
  | dep :: deps =>
    (if dep ∈ ids then [] else [depNonExistFinding tid dep]) ++
    (if dep = tid then [depSelfFinding tid] else []) ++
    depsListErrors ids tid deps

theorem validateDepsList_eq (ids : List String) (tid : String) (deps : List String) :
    ∀ v : VState,
      validateDepsList ids tid deps v =
        ⟨v.errors ++ depsListErrors ids tid deps, v.warnings⟩ := by
  induction deps with
  | nil => intro v; simp [validateDepsList, depsListErrors]
  | cons dep deps ih =>
    intro v
    simp only [validateDepsList, depsListErrors, ih]
    split_ifs <;> simp [appendError]

def depsTasksErrors (ids : List String) : List Task → List Finding
  | [] => []
  | t :: ts =>
    (match t.task_id with
     | none => []
     | some tid => depsListErrors ids tid t.dependencies) ++ depsTasksErrors ids ts

theorem validateDepsTasks_eq (ids : List String) (ts : List Task) :
    ∀ v : VState,
      validateDepsTasks ids ts v = ⟨v.errors ++ depsTasksErrors ids ts, v.warnings⟩ := by
  induction ts with
  | nil => intro v; simp [validateDepsTasks, depsTasksErrors]
  | cons t ts ih =>
    intro v
    cases htid : t.task_id with
    | none => simp [validateDepsTasks, depsTasksErrors, htid, ih]
    | some tid => simp [validateDepsTasks, depsTasksErrors, htid, ih, validateDepsList_eq]

def depsErrors (tasks : List Task) : List Finding :=
  if tasks.isEmpty then []
  else
    depsTasksErrors (taskIdSet tasks) tasks ++
    (if hasCircularDependencies tasks then [circularFinding] else [])

theorem validateDependencies_eq (tasks : List Task) (v : VState) :
    validateDependencies tasks v = ⟨v.errors ++ depsErrors tasks, v.warnings⟩ := by
  unfold validateDependencies depsErrors
  split_ifs with h1 h2 <;> simp [validateDepsTasks_eq, appendError]

/-- The complete error sequence of one `validate_structure` call on a
non-empty specification, sub-check by sub-check in execution order. -/
def structErrors (spec : DagSpec) : List Finding :=
  reqFieldsErrors spec ++ dagIdErrors spec.dag_id ++ startDateErrors spec.start_date ++
  tasksErrors (spec.tasks.getD []) ++ connsErrors spec.connections ++
  varsErrors spec.variables' ++ depsErrors (spec.tasks.getD [])

/-- The complete warning sequence of one `validate_structure` call on a
non-empty specification. -/
def structWarnings (spec : DagSpec) : List Finding :=
  reqFieldsWarnings spec ++ dagIdWarnings spec.dag_id ++ scheduleWarnings spec.schedule ++
  startDateWarnings spec.start_date ++ tasksWarnings (spec.tasks.getD []) ++
  varsWarnings spec.variables'

theorem validateStructure_some (v₀ : VState) (spec : DagSpec) :
    validateStructure v₀ (some spec) =
      (⟨(structErrors spec).isEmpty, structErrors spec, structWarnings spec⟩,
       ⟨structErrors spec, structWarnings spec⟩) := by
  simp [validateStructure, buildResult, validateRequiredFields_eq, validateDagId_eq,
    validateSchedule_eq, validateStartDate_eq, validateTasks_eq, validateConnections_eq,
    validateVariables_eq, validateDependencies_eq, structErrors, structWarnings]

/-! ## Correctness of the DFS cycle detection

`codeEdge g u v` is the edge relation of the adjacency dict `g`: the DFS
follows exactly these edges.  `hasCircularDependencies` is proved to return
`true` precisely when this relation has a cycle. -/

/-- The edge relation of an adjacency dict. -/
def codeEdge (g : List (String × List String)) (u v : String) : Prop :=
  v ∈ graphGet g u

def keys (g : List (String × List String)) : List String := g.map Prod.fst

/-- The number of keys of `g` not yet in the visited set `V` (counted with
multiplicity); the DFS termination / fuel measure. -/
def countUnvisited (g : List (String × List String)) (V : List String) : Nat :=
  ((keys g).filter (fun k => decide (k ∉ V))).length

theorem graphGet_ne_nil_mem (g : List (String × List String)) (u : String)
    (h : graphGet g u ≠ []) : u ∈ keys g := by
  induction g with
  | nil => simp [graphGet] at h
  | cons p g ih =>
    obtain ⟨k, val⟩ := p
    by_cases hk : k = u
    · simp [keys, hk]
    · simp only [graphGet, hk, if_false] at h
      simp [keys] at ih ⊢
      exact Or.inr (ih h)

theorem countUnvisited_le (g : List (String × List String)) (V : List String) :
    countUnvisited g V ≤ g.length := by
  calc countUnvisited g V ≤ (keys g).length := List.length_filter_le _ _
  _ = g.length := List.length_map _ _

theorem filterLengthMono {α : Type} (l : List α) (p q : α → Bool)
    (h : ∀ a, p a = true → q a = true) :
    (l.filter p).length ≤ (l.filter q).length := by
  induction l with
  | nil => simp
  | cons a l ih =>
    by_cases hp : p a = true
    · simp [List.filter_cons, hp, h a hp, Nat.succ_le_succ ih]
    · have : (l.filter p).length ≤ (List.filter q (a :: l)).length := by
        by_cases hq : q a = true <;>
          simp [List.filter_cons, hq] <;> omega
      simpa [List.filter_cons, hp] using this

theorem filterLengthLt {α : Type} [DecidableEq α] (l : List α) (p q : α → Bool) (a : α)
    (h : ∀ x, p x = true → q x = true) (ha : a ∈ l) (hqa : q a = true) (hpa : p a = false) :
    (l.filter p).length < (l.filter q).length := by
  induction l with
  | nil => simp at ha
  | cons b l ih =>
    rcases List.mem_cons.mp ha with hb | hb
    · subst hb
      simp only [List.filter_cons, hpa, hqa]
      have := filterLengthMono l p q h
      simp only [Bool.false_eq_true, if_false, if_true]
      exact Nat.lt_succ_of_le this
    · by_cases hpb : p b = true
      · simp [List.filter_cons, hpb, h b hpb, Nat.succ_lt_succ (ih hb)]
      · have hrec := ih hb
        by_cases hqb : q b = true <;> simp [List.filter_cons, hpb, hqb] <;> omega

theorem countUnvisited_mono (g : List (String × List String)) (V W : List String)
    (h : V ⊆ W) : countUnvisited g W ≤ countUnvisited g V := by
  apply filterLengthMono
  intro a ha
  simp only [decide_eq_true_eq] at ha ⊢
  exact fun hmem => ha (h hmem)

theorem countUnvisited_cons_lt (g : List (String × List String)) (V : List String)
    (u : String) (hu : u ∈ keys g) (hnv : u ∉ V) :
    countUnvisited g (u :: V) < countUnvisited g V := by
  apply filterLengthLt _ _ _ u
  · intro x hx
    simp only [decide_eq_true_eq, List.mem_cons] at hx ⊢
    exact fun hmem => hx (Or.inr hmem)
  · exact hu
  · simpa using hnv
  · simp

theorem dfsLoop_visited_sub (f : String → DfsState → Bool × DfsState)
    (hf : ∀ n s, s.visited ⊆ ((f n s).2).visited) :
    ∀ (l : List String) (st : DfsState), st.visited ⊆ ((dfsLoop f l st).2).visited := by
  intro l
  induction l with
  | nil => intro st; simp [dfsLoop]
  | cons nb rest ih =>
    intro st
    by_cases hv : nb ∈ st.visited
    · by_cases hr : nb ∈ st.recStack
      · simp [dfsLoop, hv, hr]
      · simpa [dfsLoop, hv, hr] using ih st
    · rcases hcall : f nb st with ⟨b, st'⟩
      cases b
      · have h1 : st.visited ⊆ st'.visited := by
          have := hf nb st; rw [hcall] at this; exact this
        have h2 := ih st'
        simp only [dfsLoop, if_neg hv, hcall]
        exact h1.trans h2
      · have h1 : st.visited ⊆ st'.visited := by
          have := hf nb st; rw [hcall] at this; exact this
        simp only [dfsLoop, if_neg hv, hcall]
        exact h1

theorem dfsVisit_visited_sub (g : List (String × List String)) :
    ∀ (fuel : Nat) (n : String) (st : DfsState),
      st.visited ⊆ ((dfsVisit g fuel n st).2).visited := by
  intro fuel
  induction fuel with
  | zero => intro n st; simp [dfsVisit]
  | succ fuel ih =>
    intro n st
    have hloop := dfsLoop_visited_sub (dfsVisit g fuel) (fun m s => ih m s)
      (graphGet g n) ⟨n :: st.visited, n :: st.recStack⟩
    rcases hl : dfsLoop (dfsVisit g fuel) (graphGet g n) ⟨n :: st.visited, n :: st.recStack⟩
      with ⟨b, st2⟩
    rw [hl] at hloop
    have hsub : st.visited ⊆ st2.visited :=
      (List.subset_cons_self _ _).trans hloop
    cases b <;> simp [dfsVisit, hl] <;> exact hsub

theorem dfsLoop_recStack_false (f : String → DfsState → Bool × DfsState)
    (hf : ∀ n s s', f n s = (false, s') → s'.recStack = s.recStack) :
    ∀ (l : List String) (st st' : DfsState),
      dfsLoop f l st = (false, st') → st'.recStack = st.recStack := by
  intro l
  induction l with
  | nil =>
    intro st st' h
    simp only [dfsLoop, Prod.mk.injEq, true_and] at h
    rw [h]
  | cons nb rest ih =>
    intro st st' h
    by_cases hv : nb ∈ st.visited
    · by_cases hr : nb ∈ st.recStack
      · simp [dfsLoop, hv, hr] at h
      · simp only [dfsLoop, hv, if_true, hr, if_false] at h
        exact ih st st' h
    · rcases hcall : f nb st with ⟨b, st2⟩
      cases b
      · simp only [dfsLoop, if_neg hv, hcall] at h
        exact (ih st2 st' h).trans (hf nb st st2 hcall)
      · simp [dfsLoop, if_neg hv, hcall] at h

theorem dfsVisit_recStack_false (g : List (String × List String)) :
    ∀ (fuel : Nat) (n : String) (st st' : DfsState),
      dfsVisit g fuel n st = (false, st') → st'.recStack = st.recStack := by
  intro fuel
  induction fuel with
  | zero => intro n st st' h; simp [dfsVisit] at h
  | succ fuel ih =>
    intro n st st' h
    rcases hl : dfsLoop (dfsVisit g fuel) (graphGet g n) ⟨n :: st.visited, n :: st.recStack⟩
      with ⟨b, st2⟩
    cases b
    · simp only [dfsVisit, hl] at h
      have h2 : st2.recStack = n :: st.recStack :=
        dfsLoop_recStack_false (dfsVisit g fuel) (fun m s s' => ih m s s') _ _ _ hl
      injection h with hb hst
      rw [← hst]
      simp [h2, List.erase_cons_head]
    · simp [dfsVisit, hl] at h

/-- Soundness of one DFS visit: a `true` answer exhibits a cycle.  The
invariants: enough fuel for the unvisited keys, the node is unvisited, the
recursion stack is inside the visited set, and every stack node reaches the
current node. -/
theorem dfsVisit_sound (g : List (String × List String)) :
    ∀ (fuel : Nat) (node : String) (st : DfsState),
      countUnvisited g st.visited < fuel →
      node ∉ st.visited →
      st.recStack ⊆ st.visited →
      (∀ x ∈ st.recStack, Relation.ReflTransGen (codeEdge g) x node) →
      (dfsVisit g fuel node st).1 = true →
      ∃ u, Relation.TransGen (codeEdge g) u u := by
  intro fuel
  induction fuel with
  | zero => intro node st hfuel; omega
  | succ fuel ih =>
    intro node st hfuel hnode hsub hstack htrue
    by_cases hkey : graphGet g node = []
    · simp [dfsVisit, hkey, dfsLoop] at htrue
    · have hmem : node ∈ keys g := graphGet_ne_nil_mem g node hkey
      have hfuel1 : countUnvisited g (node :: st.visited) < fuel := by
        have := countUnvisited_cons_lt g st.visited node hmem hnode
        omega
      have loopSound :
          ∀ (l : List String) (st' : DfsState),
            (∀ nb ∈ l, nb ∈ graphGet g node) →
            countUnvisited g st'.visited < fuel →
            st'.recStack ⊆ st'.visited →
            (∀ x ∈ st'.recStack, Relation.ReflTransGen (codeEdge g) x node) →
            (dfsLoop (dfsVisit g fuel) l st').1 = true →
            ∃ u, Relation.TransGen (codeEdge g) u u := by
        intro l
        induction l with
        | nil => intro st' _ _ _ _ ht; simp [dfsLoop] at ht
        | cons nb rest ihl =>
          intro st' hl hfuel' hsub' hstack' ht
          by_cases hv : nb ∈ st'.visited
          · by_cases hr : nb ∈ st'.recStack
            · refine ⟨nb, Relation.TransGen.tail' (hstack' nb hr) ?_⟩
              exact hl nb (List.mem_cons_self _ _)
            · simp only [dfsLoop, if_pos hv, if_neg hr] at ht
              exact ihl st' (fun x hx => hl x (List.mem_cons_of_mem _ hx)) hfuel' hsub' hstack' ht
          · rcases hcall : dfsVisit g fuel nb st' with ⟨b, st''⟩
            cases b
            · simp only [dfsLoop, if_neg hv, hcall] at ht
              have hs1 : st'.visited ⊆ st''.visited := by
                have := dfsVisit_visited_sub g fuel nb st'; rw [hcall] at this; exact this
              have hr1 : st''.recStack = st'.recStack :=
                dfsVisit_recStack_false g fuel nb st' st'' hcall
              refine ihl st'' (fun x hx => hl x (List.mem_cons_of_mem _ hx)) ?_ ?_ ?_ ht
              · have := countUnvisited_mono g st'.visited st''.visited hs1
                omega
              · rw [hr1]; exact hsub'.trans hs1
              · rw [hr1]; exact hstack'
            · have : (dfsVisit g fuel nb st').1 = true := by rw [hcall]
              refine ih nb st' hfuel' hv hsub' ?_ this
              intro x hx
              exact Relation.ReflTransGen.tail (hstack' x hx) (hl nb (List.mem_cons_self _ _))
      rcases hl : dfsLoop (dfsVisit g fuel) (graphGet g node)
          ⟨node :: st.visited, node :: st.recStack⟩ with ⟨b, st2⟩
      cases b
      · simp [dfsVisit, hl] at htrue
      · have := loopSound (graphGet g node) ⟨node :: st.visited, node :: st.recStack⟩
          (fun nb h => h) hfuel1
          (by
            intro x hx
            rcases List.mem_cons.mp hx with h | h
            · simp [h]
            · exact List.mem_cons_of_mem _ (hsub h))
          (by
            intro x hx
            rcases List.mem_cons.mp hx with h | h
            · subst h; exact Relation.ReflTransGen.refl
            · exact hstack x h)
          (by rw [hl])
        exact this

/-- Soundness of the root loop: recursion stack starts (and, between
roots, stays) empty. -/
theorem dfsRoots_sound (g : List (String × List String)) :
    ∀ (roots : List String) (st : DfsState),
      st.recStack = [] →
      dfsRoots g (g.length + 1) roots st = true →
      ∃ u, Relation.TransGen (codeEdge g) u u := by
  intro roots
  induction roots with
  | nil => intro st _ h; simp [dfsRoots] at h
  | cons n rest ih =>
    intro st hrec h
    by_cases hv : n ∈ st.visited
    · simp only [dfsRoots, if_pos hv] at h
      exact ih st hrec h
    · rcases hcall : dfsVisit g (g.length + 1) n st with ⟨b, st'⟩
      cases b
      · simp only [dfsRoots, if_neg hv, hcall] at h
        refine ih st' ?_ h
        rw [dfsVisit_recStack_false g _ n st st' hcall, hrec]
      · refine dfsVisit_sound g (g.length + 1) n st ?_ hv ?_ ?_ (by rw [hcall])
        · have := countUnvisited_le g st.visited
          omega
        · rw [hrec]; exact List.nil_subset _
        · rw [hrec]; intro x hx; simp at hx

/-- Source: `_has_circular_dependencies` only answers `true` when the adjacency
dict really has a directed cycle. -/
theorem hasCircular_sound (tasks : List Task) (h : hasCircularDependencies tasks = true) :
    ∃ u, Relation.TransGen (codeEdge (buildGraph tasks)) u u := by
  exact dfsRoots_sound (buildGraph tasks) _ ⟨[], []⟩ rfl h

/-- A node `x` is safe when no cycle is reachable from it. -/
def Safe (g : List (String × List String)) (x : String) : Prop :=
  ∀ y, Relation.ReflTransGen (codeEdge g) x y → ¬ Relation.TransGen (codeEdge g) y y

theorem safe_of_neighbors (g : List (String × List String)) (node : String)
    (h : ∀ nb ∈ graphGet g node, Safe g nb) : Safe g node := by
  intro y hpath hcyc
  rcases Relation.ReflTransGen.cases_head hpath with heq | ⟨nb, hedge, hrest⟩
  · subst heq
    rcases Relation.TransGen.head'_iff.mp hcyc with ⟨nb, hedge, hrest⟩
    exact h nb hedge nb Relation.ReflTransGen.refl (Relation.TransGen.tail' hrest hedge)
  · exact h nb hedge y hrest hcyc

/-- Completeness invariant of one DFS visit: a `false` answer leaves every
"black" node (visited but not on the recursion stack) safe, and in
particular makes the visited node itself safe. -/
theorem dfsVisit_complete (g : List (String × List String)) :
    ∀ (fuel : Nat) (node : String) (st st' : DfsState),
      countUnvisited g st.visited < fuel →
      node ∉ st.visited →
      st.recStack ⊆ st.visited →
      (∀ x ∈ st.visited, x ∉ st.recStack → Safe g x) →
      dfsVisit g fuel node st = (false, st') →
      st.visited ⊆ st'.visited ∧ node ∈ st'.visited ∧ st'.recStack = st.recStack ∧
        (∀ x ∈ st'.visited, x ∉ st'.recStack → Safe g x) := by
  intro fuel
  induction fuel with
  | zero => intro node st st' hfuel; omega
  | succ fuel ih =>
    intro node st st' hfuel hnode hsub hblack hrun
    have hloopBlack :
        ∀ (l : List String) (s1 s2 : DfsState),
          (∀ nb ∈ l, nb ∈ graphGet g node) →
          countUnvisited g s1.visited < fuel →
          s1.recStack ⊆ s1.visited →
          (∀ x ∈ s1.visited, x ∉ s1.recStack → Safe g x) →
          dfsLoop (dfsVisit g fuel) l s1 = (false, s2) →
          s1.visited ⊆ s2.visited ∧ s2.recStack = s1.recStack ∧
            (∀ x ∈ s2.visited, x ∉ s2.recStack → Safe g x) ∧
            (∀ nb ∈ l, Safe g nb) := by
      intro l
      induction l with
      | nil =>
        intro s1 s2 _ _ _ hb hrun
        simp only [dfsLoop, Prod.mk.injEq, true_and] at hrun
        subst hrun
        exact ⟨List.Subset.refl _, rfl, hb, by simp⟩
      | cons nb rest ihl =>
        intro s1 s2 hl hf hs hb hrun
        by_cases hv : nb ∈ s1.visited
        · by_cases hr : nb ∈ s1.recStack
          · simp [dfsLoop, hv, hr] at hrun
          · simp only [dfsLoop, if_pos hv, if_neg hr] at hrun
            have hnbSafe : Safe g nb := hb nb hv hr
            obtain ⟨h1, h2, h3, h4⟩ :=
              ihl s1 s2 (fun x hx => hl x (List.mem_cons_of_mem _ hx)) hf hs hb hrun
            exact ⟨h1, h2, h3, by
              intro x hx
              rcases List.mem_cons.mp hx with h | h
              · subst h; exact hnbSafe
              · exact h4 x h⟩
        · rcases hcall : dfsVisit g fuel nb s1 with ⟨b, st2⟩
          cases b
          · simp only [dfsLoop, if_neg hv, hcall] at hrun
            obtain ⟨hv1, hv2, hv3, hv4⟩ := ih nb s1 st2 hf hv hs hb hcall
            have hnbSafe : Safe g nb := by
              apply hv4 nb hv2
              rw [hv3]
              exact fun hmem => hv (hs hmem)
            obtain ⟨h1, h2, h3, h4⟩ :=
              ihl st2 s2 (fun x hx => hl x (List.mem_cons_of_mem _ hx))
                (by have := countUnvisited_mono g s1.visited st2.visited hv1; omega)
                (by rw [hv3]; exact hs.trans hv1) hv4 hrun
            refine ⟨hv1.trans h1, by rw [h2, hv3], h3, ?_⟩
            intro x hx
            rcases List.mem_cons.mp hx with h | h
            · subst h; exact hnbSafe
            · exact h4 x h
          · simp [dfsLoop, if_neg hv, hcall] at hrun
    rcases hl : dfsLoop (dfsVisit g fuel) (graphGet g node)
        ⟨node :: st.visited, node :: st.recStack⟩ with ⟨b, st2⟩
    cases b
    · simp only [dfsVisit, hl] at hrun
      injection hrun with hb hst
      by_cases hkey : graphGet g node = []
      · rw [hkey] at hl
        simp only [dfsLoop, Prod.mk.injEq, true_and] at hl
        subst hl
        rw [← hst]
        have hnodeSafe : Safe g node :=
          safe_of_neighbors g node (by rw [hkey]; simp)
        refine ⟨List.subset_cons_self _ _, by simp, by simp [List.erase_cons_head], ?_⟩
        intro x hx hxr
        simp only [List.erase_cons_head] at hxr
        rcases List.mem_cons.mp hx with h | h
        · subst h; exact hnodeSafe
        · exact hblack x h hxr
      · have hmem : node ∈ keys g := graphGet_ne_nil_mem g node hkey
        have hfuel1 : countUnvisited g (node :: st.visited) < fuel := by
          have := countUnvisited_cons_lt g st.visited node hmem hnode
          omega
        obtain ⟨h1, h2, h3, h4⟩ :=
          hloopBlack (graphGet g node) ⟨node :: st.visited, node :: st.recStack⟩ st2
            (fun x hx => hx) hfuel1
            (by
              intro x hx
              rcases List.mem_cons.mp hx with h | h
              · simp [h]
              · exact List.mem_cons_of_mem _ (hsub h))
            (by
              intro x hx hxr
              rcases List.mem_cons.mp hx with h | h
              · subst h; exact absurd (List.mem_cons_self _ _) hxr
              · exact hblack x h (fun hmem => hxr (List.mem_cons_of_mem _ hmem)))
            hl
        have hnodeSafe : Safe g node := safe_of_neighbors g node h4
        rw [← hst]
        have herase : st2.recStack.erase node = st.recStack := by
          rw [h2, List.erase_cons_head]
        refine ⟨(List.subset_cons_self _ _).trans h1, h1 (List.mem_cons_self _ _), herase, ?_⟩
        intro x hx hxr
        simp only [herase] at hxr
        by_cases hxn : x = node
        · subst hxn; exact hnodeSafe
        · apply h3 x hx
          rw [h2]
          intro hmem
          rcases List.mem_cons.mp hmem with h | h
          · exact hxn h
          · exact hxr h
    · simp [dfsVisit, hl] at hrun

theorem dfsRoots_complete (g : List (String × List String)) :
    ∀ (roots : List String) (st : DfsState),
      st.recStack = [] →
      (∀ x ∈ st.visited, Safe g x) →
      dfsRoots g (g.length + 1) roots st = false →
      ∀ r ∈ roots, Safe g r := by
  intro roots
  induction roots with
  | nil => intro st _ _ _ r hr; simp at hr
  | cons n rest ih =>
    intro st hrec hsafe hrun r hr
    by_cases hv : n ∈ st.visited
    · simp only [dfsRoots, if_pos hv] at hrun
      rcases List.mem_cons.mp hr with h | h
      · subst h; exact hsafe r hv
      · exact ih st hrec hsafe hrun r h
    · rcases hcall : dfsVisit g (g.length + 1) n st with ⟨b, st'⟩
      cases b
      · simp only [dfsRoots, if_neg hv, hcall] at hrun
        obtain ⟨h1, h2, h3, h4⟩ :=
          dfsVisit_complete g (g.length + 1) n st st'
            (by have := countUnvisited_le g st.visited; omega) hv
            (by rw [hrec]; exact List.nil_subset _)
            (fun x hx _ => hsafe x hx) hcall
        have hempty : st'.recStack = [] := by rw [h3, hrec]
        have hsafe' : ∀ x ∈ st'.visited, Safe g x := by
          intro x hx
          exact h4 x hx (by rw [hempty]; simp)
        rcases List.mem_cons.mp hr with h | h
        · subst h; exact hsafe' r h2
        · exact ih st' hempty hsafe' hrun r h
      · simp [dfsRoots, if_neg hv, hcall] at hrun

/-- Source: `_has_circular_dependencies` finds every cycle: a `false` answer means
the adjacency dict's edge relation is acyclic. -/
theorem hasCircular_complete (tasks : List Task)
    (h : hasCircularDependencies tasks = false) :
    ∀ u, ¬ Relation.TransGen (codeEdge (buildGraph tasks)) u u := by
  intro u hcyc
  rcases Relation.TransGen.head'_iff.mp hcyc with ⟨w, hw, _⟩
  have hne : graphGet (buildGraph tasks) u ≠ [] := by
    intro hnil
    rw [codeEdge, hnil] at hw
    simp at hw
  have hu : u ∈ keys (buildGraph tasks) := graphGet_ne_nil_mem _ u hne
  have := dfsRoots_complete (buildGraph tasks) (keys (buildGraph tasks)) ⟨[], []⟩ rfl
    (by intro x hx; simp at hx) h u hu
  exact this u Relation.ReflTransGen.refl hcyc

/-- The two directions combined. -/
theorem hasCircular_iff (tasks : List Task) :
    hasCircularDependencies tasks = true ↔
      ∃ u, Relation.TransGen (codeEdge (buildGraph tasks)) u u := by
  constructor
  · exact hasCircular_sound tasks
  · intro h
    by_contra hfalse
    rcases h with ⟨u, hcyc⟩
    exact hasCircular_complete tasks (Bool.not_eq_true _ ▸ hfalse) u hcyc

/-! ## Telling findings apart

The counting claims identify findings by kind, field and message.  The
interpolated messages and fields are discriminated by a literal prefix or
by their final literal character. -/

theorem appendNeOfTake (p s m : String) (h : m.data.take p.data.length ≠ p.data) :
    p ++ s ≠ m := by
  intro he
  apply h
  rw [← he, String.data_append, List.take_left]

theorem dataAppendNeNil (a b : String) (h : b.data ≠ []) : (a ++ b).data ≠ [] := by
  rw [String.data_append]
  simp [h]

theorem lastCharAppend (a b : String) (h : b.data ≠ []) :
    (a ++ b).data.getLast? = b.data.getLast? := by
  rw [String.data_append]
  exact List.getLast?_append_of_ne_nil _ h

theorem findingNeOfKind (f f' : Finding) (h : f.kind ≠ f'.kind) : f ≠ f' :=
  fun he => h (he ▸ rfl)

theorem findingNeOfMessage (f f' : Finding) (h : f.message ≠ f'.message) : f ≠ f' :=
  fun he => h (he ▸ rfl)

theorem depNonExistMessageLast (t d : String) :
    (depNonExistFinding t d).message.data.getLast? = some '"' := by
  have hB : ("\"" : String).data ≠ [] := by decide
  have h3 : (d ++ "\"").data ≠ [] := dataAppendNeNil d _ hB
  have h2 : ("\" depends on non-existent task \"" ++ (d ++ "\"")).data ≠ [] :=
    dataAppendNeNil _ _ h3
  have h1 : (t ++ ("\" depends on non-existent task \"" ++ (d ++ "\""))).data ≠ [] :=
    dataAppendNeNil _ _ h2
  show ("Task \"" ++ (t ++ ("\" depends on non-existent task \"" ++ (d ++ "\"")))).data.getLast?
      = some '"'
  rw [lastCharAppend _ _ h1, lastCharAppend _ _ h2, lastCharAppend _ _ h3,
    lastCharAppend _ _ hB]
  decide

theorem depSelfMessageLast (t : String) :
    (depSelfFinding t).message.data.getLast? = some 'f' := by
  have hB : ("\" cannot depend on itself" : String).data ≠ [] := by decide
  have h1 : (t ++ "\" cannot depend on itself").data ≠ [] := dataAppendNeNil t _ hB
  show ("Task \"" ++ (t ++ "\" cannot depend on itself")).data.getLast? = some 'f'
  rw [lastCharAppend _ _ h1, lastCharAppend _ _ hB]
  decide

theorem depNonExist_ne_circular (t d : String) : depNonExistFinding t d ≠ circularFinding := by
  apply findingNeOfMessage
  exact appendNeOfTake _ _ _ (by decide)

theorem depSelf_ne_circular (t : String) : depSelfFinding t ≠ circularFinding := by
  apply findingNeOfMessage
  exact appendNeOfTake _ _ _ (by decide)

/-- The shape of the "depends on non-existent task" errors: among the
findings the dependency sub-check can emit, exactly these end in `"`. -/
def isNonExistShaped (f : Finding) : Bool :=
  f.kind == "dependency" && f.field == some "dependencies" &&
    f.message.data.getLast? == some '"'

theorem isNonExistShaped_nonExist (t d : String) :
    isNonExistShaped (depNonExistFinding t d) = true := by
  unfold isNonExistShaped
  rw [depNonExistMessageLast t d]
  simp [depNonExistFinding]

theorem isNonExistShaped_self (t : String) :
    isNonExistShaped (depSelfFinding t) = false := by
  unfold isNonExistShaped
  rw [depSelfMessageLast t]
  simp [depSelfFinding]

theorem isNonExistShaped_circular : isNonExistShaped circularFinding = false := by
  decide

theorem tasksFieldNe (i : Nat) (suf m : String)
    (h : m.data.take 6 ≠ "tasks[".data) :
    ("tasks[" ++ (natStr i ++ suf)) ≠ m :=
  appendNeOfTake _ _ _ h

theorem connsFieldNe (i : Nat) (suf m : String)
    (h : m.data.take 12 ≠ "connections[".data) :
    ("connections[" ++ (natStr i ++ suf)) ≠ m :=
  appendNeOfTake _ _ _ h

theorem varsFieldNe (i : Nat) (suf m : String)
    (h : m.data.take 10 ≠ "variables[".data) :
    ("variables[" ++ (natStr i ++ suf)) ≠ m :=
  appendNeOfTake _ _ _ h

/-! ### Catalogs: what each sub-check's contribution can contain -/

theorem mem_if_singleton {α : Type} {c : Prop} [Decidable c] {a x : α}
    (h : x ∈ if c then [a] else []) : x = a := by
  split_ifs at h <;> simp_all

theorem mem_if_nil_singleton {α : Type} {c : Prop} [Decidable c] {a x : α}
    (h : x ∈ if c then [] else [a]) : x = a := by
  split_ifs at h <;> simp_all

/-- Shows `some (tasks[i]<suf>) ≠ some m` whenever `m` does not start with
`tasks[`. -/
theorem tasksFieldNeSome (i : Nat) (suf m : String) (h : m.data.take 6 ≠ "tasks[".data) :
    some ("tasks[" ++ (natStr i ++ suf)) ≠ some m := by
  intro he
  exact tasksFieldNe i suf m h (Option.some_inj.mp he)

theorem connsFieldNeSome (i : Nat) (suf m : String) (h : m.data.take 12 ≠ "connections[".data) :
    some ("connections[" ++ (natStr i ++ suf)) ≠ some m := by
  intro he
  exact connsFieldNe i suf m h (Option.some_inj.mp he)

theorem varsFieldNeSome (i : Nat) (suf m : String) (h : m.data.take 10 ≠ "variables[".data) :
    some ("variables[" ++ (natStr i ++ suf)) ≠ some m := by
  intro he
  exact varsFieldNe i suf m h (Option.some_inj.mp he)

theorem reqFieldsErrors_shape (spec : DagSpec) :
    ∀ f ∈ reqFieldsErrors spec, f.kind = "field" := by
  intro f hf
  unfold reqFieldsErrors at hf
  rcases List.mem_append.mp hf with h12 | h3
  · rcases List.mem_append.mp h12 with h1 | h2
    · rw [mem_if_singleton h1]; rfl
    · rw [mem_if_singleton h2]; rfl
  · rw [mem_if_singleton h3]; rfl

theorem dagIdErrors_shape (o : Option String) :
    ∀ f ∈ dagIdErrors o, f.kind = "format" ∧ f.field = some "dag_id" := by
  intro f hf
  unfold dagIdErrors at hf
  cases o with
  | none => simp at hf
  | some s =>
    dsimp only at hf
    by_cases hs : s = ""
    · simp [hs] at hf
    · rw [if_neg hs] at hf
      rcases List.mem_append.mp hf with h | h
      · rw [mem_if_nil_singleton h]; exact ⟨rfl, rfl⟩
      · rw [mem_if_singleton h]; exact ⟨rfl, rfl⟩

theorem startDateErrors_shape (o : Option String) :
    ∀ f ∈ startDateErrors o, ∃ s, f = startDateInvalidFinding s := by
  intro f hf
  unfold startDateErrors at hf
  cases o with
  | none => simp at hf
  | some s =>
    dsimp only at hf
    by_cases hs : s = ""
    · simp [hs] at hf
    · rw [if_neg hs] at hf
      exact ⟨s, mem_if_nil_singleton hf⟩

theorem taskStepErrors_shape (seen : List String) (i : Nat) (tid : String) (t : Task) :
    ∀ f ∈ taskStepErrors seen i tid t,
      f.kind ≠ "dependency" ∧ f.field ≠ some "start_date" ∧ f.field ≠ some "dag_id" := by
  intro f hf
  unfold taskStepErrors at hf
  rcases List.mem_append.mp hf with h12 | hop
  · rcases List.mem_append.mp h12 with h1 | h2
    · rw [mem_if_singleton h1]
      exact ⟨by simp [taskDupFinding], by simp [taskDupFinding], by simp [taskDupFinding]⟩
    · rw [mem_if_nil_singleton h2]
      exact ⟨by simp [taskIdFormatFinding], tasksFieldNeSome i "].task_id" _ (by decide),
        tasksFieldNeSome i "].task_id" _ (by decide)⟩
  · have hmo : f = taskMissingOpFinding i tid := by
      unfold opErrors at hop
      cases hopt : t.operator_type with
      | none => rw [hopt] at hop; simpa using hop
      | some op => rw [hopt] at hop; exact mem_if_singleton hop
    rw [hmo]
    exact ⟨by simp [taskMissingOpFinding], tasksFieldNeSome i "].operator_type" _ (by decide),
      tasksFieldNeSome i "].operator_type" _ (by decide)⟩

theorem tasksAuxErrors_shape (ts : List Task) :
    ∀ (i : Nat) (seen : List String), ∀ f ∈ tasksAuxErrors i seen ts,
      f.kind ≠ "dependency" ∧ f.field ≠ some "start_date" ∧ f.field ≠ some "dag_id" := by
  induction ts with
  | nil => intro i seen f hf; simp [tasksAuxErrors] at hf
  | cons t ts ih =>
    intro i seen f hf
    unfold tasksAuxErrors at hf
    cases htid : t.task_id with
    | none =>
      rw [htid] at hf
      rcases List.mem_cons.mp hf with h | h
      · subst h
        exact ⟨by simp [taskMissingIdFinding], tasksFieldNeSome i "].task_id" _ (by decide),
          tasksFieldNeSome i "].task_id" _ (by decide)⟩
      · exact ih (i + 1) seen f h
    | some tid =>
      rw [htid] at hf
      rcases List.mem_append.mp hf with h | h
      · exact taskStepErrors_shape seen i tid t f h
      · exact ih (i + 1) (tid :: seen) f h

theorem tasksErrors_shape (ts : List Task) :
    ∀ f ∈ tasksErrors ts,
      f.kind ≠ "dependency" ∧ f.field ≠ some "start_date" ∧ f.field ≠ some "dag_id" := by
  intro f hf
  unfold tasksErrors at hf
  split_ifs at hf
  · simp only [List.mem_singleton] at hf
    subst hf
    exact ⟨by decide, by decide, by decide⟩
  · exact tasksAuxErrors_shape ts 0 [] f hf

theorem connsAuxErrors_shape (cs : List Connection) :
    ∀ (i : Nat) (seen : List String), ∀ f ∈ connsAuxErrors i seen cs,
      (f.kind = "field" ∨ f.kind = "duplicate") ∧ f.field ≠ some "dag_id" := by
  induction cs with
  | nil => intro i seen f hf; simp [connsAuxErrors] at hf
  | cons c cs ih =>
    intro i seen f hf
    unfold connsAuxErrors at hf
    cases hcid : c.conn_id with
    | none =>
      rw [hcid] at hf
      rcases List.mem_cons.mp hf with h | h
      · subst h
        exact ⟨Or.inl rfl, connsFieldNeSome i "].conn_id" _ (by decide)⟩
      · exact ih (i + 1) seen f h
    | some cid =>
      rw [hcid] at hf
      rcases List.mem_append.mp hf with h | h
      · unfold connStepErrors at h
        rcases List.mem_append.mp h with h1 | h2
        · rw [mem_if_singleton h1]
          exact ⟨Or.inr rfl, by simp [connDupFinding]⟩
        · rw [mem_if_nil_singleton h2]
          exact ⟨Or.inl rfl, connsFieldNeSome i "].conn_type" _ (by decide)⟩
      · exact ih (i + 1) (cid :: seen) f h

theorem connsErrors_shape (cs : List Connection) :
    ∀ f ∈ connsErrors cs, (f.kind = "field" ∨ f.kind = "duplicate") ∧ f.field ≠ some "dag_id" :=
  connsAuxErrors_shape cs 0 []

theorem varsErrors_shape (xs : List Variable) :
    ∀ f ∈ varsErrors xs, f.kind = "field" ∧ f.field ≠ some "dag_id" := by
  have haux : ∀ (xs : List Variable) (i : Nat), ∀ f ∈ varsAuxErrors i xs,
      f.kind = "field" ∧ f.field ≠ some "dag_id" := by
    intro xs
    induction xs with
    | nil => intro i f hf; simp [varsAuxErrors] at hf
    | cons x xs ih =>
      intro i f hf
      unfold varsAuxErrors at hf
      cases hk : x.key with
      | none =>
        rw [hk] at hf
        rcases List.mem_cons.mp hf with h | h
        · subst h
          exact ⟨rfl, varsFieldNeSome i "].key" _ (by decide)⟩
        · exact ih (i + 1) f h
      | some key =>
        rw [hk] at hf
        exact ih (i + 1) f hf
  exact haux xs 0

theorem depsListErrors_shape (ids : List String) (tid : String) (deps : List String) :
    ∀ f ∈ depsListErrors ids tid deps,
      (∃ d, f = depNonExistFinding tid d) ∨ f = depSelfFinding tid := by
  induction deps with
  | nil => intro f hf; simp [depsListErrors] at hf
  | cons dep deps ih =>
    intro f hf
    unfold depsListErrors at hf
    rcases List.mem_append.mp hf with h12 | h3
    · rcases List.mem_append.mp h12 with h1 | h2
      · exact Or.inl ⟨dep, mem_if_nil_singleton h1⟩
      · exact Or.inr (mem_if_singleton h2)
    · exact ih f h3

theorem depsTasksErrors_shape (ids : List String) (ts : List Task) :
    ∀ f ∈ depsTasksErrors ids ts,
      (∃ t d, f = depNonExistFinding t d) ∨ (∃ t, f = depSelfFinding t) := by
  induction ts with
  | nil => intro f hf; simp [depsTasksErrors] at hf
  | cons t ts ih =>
    intro f hf
    unfold depsTasksErrors at hf
    rcases List.mem_append.mp hf with h | h
    · cases htid : t.task_id with
      | none => rw [htid] at h; simp at h
      | some tid =>
        rw [htid] at h
        rcases depsListErrors_shape ids tid t.dependencies f h with ⟨d, hd⟩ | hs
        · exact Or.inl ⟨tid, d, hd⟩
        · exact Or.inr ⟨tid, hs⟩
    · exact ih f h

/-! Warning catalogs. -/

theorem reqFieldsWarnings_shape (spec : DagSpec) :
    ∀ f ∈ reqFieldsWarnings spec, f = scheduleNoneFinding := by
  intro f hf
  unfold reqFieldsWarnings at hf
  exact mem_if_singleton hf

theorem dagIdWarnings_shape (o : Option String) :
    ∀ f ∈ dagIdWarnings o, ∃ s, f = dagIdLowercaseFinding s := by
  intro f hf
  unfold dagIdWarnings at hf
  cases o with
  | none => simp at hf
  | some s =>
    dsimp only at hf
    by_cases hs : s = ""
    · simp [hs] at hf
    · rw [if_neg hs] at hf
      exact ⟨s, mem_if_nil_singleton hf⟩

theorem scheduleWarnings_shape (o : Option String) :
    ∀ f ∈ scheduleWarnings o, ∃ s, f = scheduleCronFinding s := by
  intro f hf
  unfold scheduleWarnings at hf
  cases o with
  | none => simp at hf
  | some s =>
    dsimp only at hf
    refine ⟨s, ?_⟩
    split_ifs at hf <;> simp_all

theorem startDateWarnings_shape (o : Option String) :
    ∀ f ∈ startDateWarnings o, f = startDateMissingFinding := by
  intro f hf
  unfold startDateWarnings at hf
  cases o with
  | none => simpa using hf
  | some s =>
    dsimp only at hf
    exact mem_if_singleton hf

theorem tasksAuxWarnings_shape (ts : List Task) :
    ∀ (i : Nat), ∀ f ∈ tasksAuxWarnings i ts,
      (∃ j op, f = taskUnknownOpFinding j op) ∨ (∃ j tid, f = taskParamsFinding j tid) := by
  induction ts with
  | nil => intro i f hf; simp [tasksAuxWarnings] at hf
  | cons t ts ih =>
    intro i f hf
    unfold tasksAuxWarnings at hf
    cases htid : t.task_id with
    | none => rw [htid] at hf; exact ih (i + 1) f hf
    | some tid =>
      rw [htid] at hf
      rcases List.mem_append.mp hf with h | h
      · unfold taskStepWarnings at h
        rcases List.mem_append.mp h with h1 | h2
        · unfold opWarnings at h1
          cases hopt : t.operator_type with
          | none => rw [hopt] at h1; simp at h1
          | some op =>
            rw [hopt] at h1
            refine Or.inl ⟨i, op, ?_⟩
            dsimp only at h1
            split_ifs at h1 <;> simp_all
        · exact Or.inr ⟨i, tid, mem_if_singleton h2⟩
      · exact ih (i + 1) f h

theorem tasksWarnings_shape (ts : List Task) :
    ∀ f ∈ tasksWarnings ts,
      (∃ j op, f = taskUnknownOpFinding j op) ∨ (∃ j tid, f = taskParamsFinding j tid) := by
  intro f hf
  unfold tasksWarnings at hf
  split_ifs at hf
  · simp at hf
  · exact tasksAuxWarnings_shape ts 0 f hf

theorem varsWarnings_shape (xs : List Variable) :
    ∀ f ∈ varsWarnings xs, ∃ k, f = varDupFinding k := by
  have haux : ∀ (xs : List Variable) (i : Nat) (seen : List String),
      ∀ f ∈ varsAuxWarnings i seen xs, ∃ k, f = varDupFinding k := by
    intro xs
    induction xs with
    | nil => intro i seen f hf; simp [varsAuxWarnings] at hf
    | cons x xs ih =>
      intro i seen f hf
      unfold varsAuxWarnings at hf
      cases hk : x.key with
      | none => rw [hk] at hf; exact ih (i + 1) seen f hf
      | some key =>
        rw [hk] at hf
        rcases List.mem_append.mp hf with h | h
        · exact ⟨key, mem_if_singleton h⟩
        · exact ih (i + 1) (key :: seen) f h
  exact haux xs 0 []

/-! ## Relating the adjacency dict to the declared dependencies -/

/-- The dependency graph as the claims state it: `u → v` when some task of
the list declares `task_id = u` with `v` among its dependencies. -/
def specEdge (tasks : List Task) (u v : String) : Prop :=
  ∃ t ∈ tasks, t.task_id = some u ∧ v ∈ t.dependencies

theorem graphGet_dictInsert (g : List (String × List String)) (k : String)
    (val : List String) (u : String) :
    graphGet (dictInsert g k val) u = if k = u then val else graphGet g u := by
  induction g with
  | nil => simp [dictInsert, graphGet]
  | cons p g ih =>
    obtain ⟨k', v'⟩ := p
    by_cases hk : k' = k
    · subst hk
      by_cases hu : k' = u <;> simp [dictInsert, graphGet, hu]
    · by_cases hu : k' = u
      · subst hu
        have : ¬ k = k' := fun he => hk he.symm
        simp [dictInsert, graphGet, hk, this]
      · simp [dictInsert, graphGet, hk, hu, ih]

/-- Every edge of the adjacency dict comes from some declared task: the
dict keeps, for each `task_id`, the dependencies of its last declaration. -/
theorem codeEdge_sub_specEdge (tasks : List Task) (u v : String)
    (h : codeEdge (buildGraph tasks) u v) : specEdge tasks u v := by
  have main : ∀ (ts : List Task) (g : List (String × List String)),
      v ∈ graphGet (ts.foldl (fun g t =>
        match t.task_id with
        | none => g
        | some tid => dictInsert g tid t.dependencies) g) u →
      v ∈ graphGet g u ∨ ∃ t ∈ ts, t.task_id = some u ∧ v ∈ t.dependencies := by
    intro ts
    induction ts with
    | nil => intro g hg; exact Or.inl hg
    | cons t ts ih =>
      intro g hg
      rw [List.foldl_cons] at hg
      rcases ih _ hg with hstep | ⟨t', ht', htid, hdep⟩
      · cases htid : t.task_id with
        | none => rw [htid] at hstep; exact Or.inl hstep
        | some tid =>
          rw [htid] at hstep
          rw [graphGet_dictInsert] at hstep
          by_cases htu : tid = u
          · subst htu
            rw [if_pos rfl] at hstep
            exact Or.inr ⟨t, List.mem_cons_self _ _, htid, hstep⟩
          · rw [if_neg htu] at hstep
            exact Or.inl hstep
      · exact Or.inr ⟨t', List.mem_cons_of_mem _ ht', htid, hdep⟩
  rcases main tasks [] h with habs | hok
  · simp [graphGet] at habs
  · exact hok

/-! ## Counting the circular-dependency error -/

theorem ne_circular_of_kind (f : Finding) (h : f.kind ≠ "dependency") :
    (f == circularFinding) = false := by
  rw [beq_eq_false_iff_ne]
  exact findingNeOfKind f circularFinding (by rw [show circularFinding.kind = "dependency" from rfl]; exact h)

theorem depsListErrors_countCirc (ids : List String) (tid : String) (deps : List String) :
    (depsListErrors ids tid deps).countP (fun f => f == circularFinding) = 0 := by
  apply List.countP_eq_zero.mpr
  intro f hf
  rcases depsListErrors_shape ids tid deps f hf with ⟨d, hd⟩ | hs
  · subst hd; simp [depNonExist_ne_circular]
  · subst hs; simp [depSelf_ne_circular]

theorem depsTasksErrors_countCirc (ids : List String) (ts : List Task) :
    (depsTasksErrors ids ts).countP (fun f => f == circularFinding) = 0 := by
  apply List.countP_eq_zero.mpr
  intro f hf
  rcases depsTasksErrors_shape ids ts f hf with ⟨t, d, hd⟩ | ⟨t, hs⟩
  · subst hd; simp [depNonExist_ne_circular]
  · subst hs; simp [depSelf_ne_circular]

theorem depsErrors_countCirc (ts : List Task) :
    (depsErrors ts).countP (fun f => f == circularFinding) =
      if hasCircularDependencies ts then 1 else 0 := by
  unfold depsErrors
  by_cases hemp : ts.isEmpty
  · have hts : ts = [] := List.isEmpty_iff.mp hemp
    subst hts
    simp [hasCircularDependencies, buildGraph, dfsRoots]
  · rw [if_neg hemp, List.countP_append, depsTasksErrors_countCirc]
    by_cases hc : hasCircularDependencies ts
    · rw [if_pos hc, if_pos hc]
      simp
    · rw [if_neg hc, if_neg hc]
      simp

theorem structErrors_countCirc (spec : DagSpec) :
    (structErrors spec).countP (fun f => f == circularFinding) =
      if hasCircularDependencies (spec.tasks.getD []) then 1 else 0 := by
  unfold structErrors
  repeat rw [List.countP_append]
  rw [depsErrors_countCirc]
  have h1 : (reqFieldsErrors spec).countP (fun f => f == circularFinding) = 0 :=
    List.countP_eq_zero.mpr (fun f hf =>
      by simp [ne_circular_of_kind f (by rw [reqFieldsErrors_shape spec f hf]; decide)])
  have h2 : (dagIdErrors spec.dag_id).countP (fun f => f == circularFinding) = 0 :=
    List.countP_eq_zero.mpr (fun f hf =>
      by simp [ne_circular_of_kind f (by rw [(dagIdErrors_shape _ f hf).1]; decide)])
  have h3 : (startDateErrors spec.start_date).countP (fun f => f == circularFinding) = 0 :=
    List.countP_eq_zero.mpr (fun f hf => by
      obtain ⟨s, hs⟩ := startDateErrors_shape _ f hf
      subst hs
      have hne := ne_circular_of_kind (startDateInvalidFinding s)
        (by simp [startDateInvalidFinding])
      simp [hne])
  have h4 : (tasksErrors (spec.tasks.getD [])).countP (fun f => f == circularFinding) = 0 :=
    List.countP_eq_zero.mpr (fun f hf =>
      by simp [ne_circular_of_kind f (tasksErrors_shape _ f hf).1])
  have h5 : (connsErrors spec.connections).countP (fun f => f == circularFinding) = 0 :=
    List.countP_eq_zero.mpr (fun f hf => by
      rcases (connsErrors_shape _ f hf).1 with h | h <;>
        simp [ne_circular_of_kind f (by rw [h]; decide)])
  have h6 : (varsErrors spec.variables').countP (fun f => f == circularFinding) = 0 :=
    List.countP_eq_zero.mpr (fun f hf =>
      by simp [ne_circular_of_kind f (by rw [(varsErrors_shape _ f hf).1]; decide)])
  rw [h1, h2, h3, h4, h5, h6]
  omega

/-! ## The dangling-reference errors, one per occurrence -/

/-- All (task_id, dangling reference) occurrences, in order, relative to a
given id set. -/
def danglingOccsWith (ids : List String) (tasks : List Task) : List (String × String) :=
  tasks.flatMap (fun t =>
    match t.task_id with
    | none => []
    | some tid => t.dependencies.filterMap (fun d => if d ∈ ids then none else some (tid, d)))

/-- All (task_id, dangling reference) occurrences of a task list: for every
task with a `task_id`, every entry of its dependencies list that is not a
declared `task_id` of the specification. -/
def danglingOccs (tasks : List Task) : List (String × String) :=
  danglingOccsWith (taskIdSet tasks) tasks

theorem isNonExistShaped_false_of_kind (f : Finding) (h : f.kind ≠ "dependency") :
    isNonExistShaped f = false := by
  unfold isNonExistShaped
  simp [beq_eq_false_iff_ne.mpr h]

theorem depsListErrors_filter (ids : List String) (tid : String) (deps : List String) :
    (depsListErrors ids tid deps).filter isNonExistShaped =
      (deps.filterMap (fun d => if d ∈ ids then none else some (tid, d))).map
        (fun p => depNonExistFinding p.1 p.2) := by
  induction deps with
  | nil => simp [depsListErrors]
  | cons dep deps ih =>
    unfold depsListErrors
    rw [List.filter_append, List.filter_append, ih, List.filterMap_cons]
    have hNE : List.filter isNonExistShaped
        (if dep ∈ ids then [] else [depNonExistFinding tid dep]) =
        (if dep ∈ ids then [] else [depNonExistFinding tid dep]) := by
      split_ifs <;> simp [isNonExistShaped_nonExist]
    have hSelf : List.filter isNonExistShaped
        (if dep = tid then [depSelfFinding tid] else []) = [] := by
      split_ifs <;> simp [isNonExistShaped_self]
    rw [hNE, hSelf, List.append_nil]
    by_cases hmem : dep ∈ ids <;> simp [hmem]

theorem depsTasksErrors_filter (ids : List String) (ts : List Task) :
    (depsTasksErrors ids ts).filter isNonExistShaped =
      (danglingOccsWith ids ts).map (fun p => depNonExistFinding p.1 p.2) := by
  induction ts with
  | nil => simp [depsTasksErrors, danglingOccsWith]
  | cons t ts ih =>
    have hcons : danglingOccsWith ids (t :: ts) =
        (match t.task_id with
         | none => []
         | some tid =>
           t.dependencies.filterMap (fun d => if d ∈ ids then none else some (tid, d))) ++
          danglingOccsWith ids ts := by
      unfold danglingOccsWith
      rw [List.flatMap_cons]
    have hunfold : depsTasksErrors ids (t :: ts) =
        (match t.task_id with
         | none => []
         | some tid => depsListErrors ids tid t.dependencies) ++ depsTasksErrors ids ts := rfl
    rw [hcons, List.map_append, ← ih, hunfold, List.filter_append]
    congr 1
    cases t.task_id with
    | none => simp
    | some tid => exact depsListErrors_filter ids tid t.dependencies

theorem depsErrors_filter (ts : List Task) :
    (depsErrors ts).filter isNonExistShaped =
      (danglingOccs ts).map (fun p => depNonExistFinding p.1 p.2) := by
  unfold depsErrors danglingOccs
  by_cases hemp : ts.isEmpty
  · have hts : ts = [] := List.isEmpty_iff.mp hemp
    subst hts
    simp [danglingOccsWith]
  · rw [if_neg hemp, List.filter_append, depsTasksErrors_filter]
    have hcirc : (if hasCircularDependencies ts then [circularFinding] else []).filter
        isNonExistShaped = [] := by
      split_ifs <;> simp [isNonExistShaped_circular]
    rw [hcirc, List.append_nil]

/-! ## Counting the start_date format error -/

theorem pStart_false_of_kind (f : Finding) (h : f.kind ≠ "format") :
    (f.kind == "format" && f.field == some "start_date") = false := by
  simp [beq_eq_false_iff_ne.mpr h]

theorem pStart_false_of_field (f : Finding) (h : f.field ≠ some "start_date") :
    (f.kind == "format" && f.field == some "start_date") = false := by
  simp [beq_eq_false_iff_ne.mpr h]

/-! ## Filtering the params warnings -/

theorem pParams_false_of_kind (f : Finding) (h : f.kind ≠ "params") :
    (f.kind == "params") = false :=
  beq_eq_false_iff_ne.mpr h

theorem tasksAuxWarnings_filter (ts : List Task) :
    ∀ i : Nat,
      (tasksAuxWarnings i ts).filter (fun f => f.kind == "params") =
        (ts.enumFrom i).filterMap (fun p =>
          match p.2.task_id with
          | none => none
          | some tid =>
            if opTruthy p.2 && paramsFalsy p.2 then some (taskParamsFinding p.1 tid)
            else none) := by
  induction ts with
  | nil => intro i; simp [tasksAuxWarnings]
  | cons t ts ih =>
    intro i
    unfold tasksAuxWarnings
    rw [List.enumFrom_cons]
    cases htid : t.task_id with
    | none =>
      rw [List.filterMap_cons]
      dsimp only
      rw [htid]
      exact ih (i + 1)
    | some tid =>
      rw [List.filterMap_cons]
      dsimp only
      rw [htid]
      dsimp only
      rw [List.filter_append, ih (i + 1)]
      unfold taskStepWarnings
      rw [List.filter_append]
      have hops : (opWarnings i t).filter (fun f => f.kind == "params") = [] := by
        rw [List.filter_eq_nil_iff]
        intro f hf
        unfold opWarnings at hf
        cases hopt : t.operator_type with
        | none => rw [hopt] at hf; simp at hf
        | some op =>
          rw [hopt] at hf
          dsimp only at hf
          split_ifs at hf <;> simp_all [taskUnknownOpFinding]
      rw [hops, List.nil_append]
      by_cases hc : opTruthy t && paramsFalsy t <;> simp [hc, taskParamsFinding]

theorem tasksWarnings_filter (ts : List Task) :
    (tasksWarnings ts).filter (fun f => f.kind == "params") =
      ts.enum.filterMap (fun p =>
        match p.2.task_id with
        | none => none
        | some tid =>
          if opTruthy p.2 && paramsFalsy p.2 then some (taskParamsFinding p.1 tid)
          else none) := by
  unfold tasksWarnings
  split_ifs with h
  · have hts : ts = [] := List.isEmpty_iff.mp h
    subst hts
    simp
  · exact tasksAuxWarnings_filter ts 0

theorem depsErrors_shape (ts : List Task) :
    ∀ f ∈ depsErrors ts, f.kind = "dependency" ∧ f.field = some "dependencies" := by
  intro f hf
  unfold depsErrors at hf
  split_ifs at hf
  · simp at hf
  · rcases List.mem_append.mp hf with h | h
    · rcases depsTasksErrors_shape _ _ f h with ⟨t, d, rfl⟩ | ⟨t, rfl⟩ <;> exact ⟨rfl, rfl⟩
    · simp only [List.mem_singleton] at h
      subst h
      exact ⟨rfl, rfl⟩
  · rcases List.mem_append.mp hf with h | h
    · rcases depsTasksErrors_shape _ _ f h with ⟨t, d, rfl⟩ | ⟨t, rfl⟩ <;> exact ⟨rfl, rfl⟩
    · simp at h

/-- A rank function decreasing along every edge rules out cycles. -/
theorem acyclicOfRank {α : Type} (r : α → α → Prop) (rank : α → Nat)
    (h : ∀ x y, r x y → rank y < rank x) : ∀ u, ¬ Relation.TransGen r u u := by
  intro u hcyc
  have hlt : ∀ a b, Relation.TransGen r a b → rank b < rank a := by
    intro a b hab
    induction hab with
    | single h1 => exact h _ _ h1
    | tail _ h1 ih => exact lt_trans (h _ _ h1) ih
  exact lt_irrefl _ (hlt u u hcyc)

/-! ## Concrete fixtures used by witnesses and counterexamples -/

def taskA : Task := ⟨some "a", some "BashOperator", some [("cmd", "x")], none, ["b"]⟩

def taskB : Task := ⟨some "b", some "BashOperator", some [("cmd", "x")], none, ["a"]⟩

def taskA2 : Task := ⟨some "a", some "BashOperator", some [("cmd", "x")], none, []⟩

def taskBnil : Task := ⟨some "b", some "BashOperator", some [("cmd", "x")], none, []⟩

def taskC : Task := ⟨some "c", some "BashOperator", some [("cmd", "x")], none, ["zzz"]⟩

def c1WitnessSpec : DagSpec :=
  ⟨some "x", some "d", some "@daily", none, some [taskA, taskB], [], []⟩

def c1CexTasks : List Task := [taskA, taskA2, taskB]

def c1CexSpec : DagSpec :=
  ⟨some "x", some "d", some "@daily", none, some c1CexTasks, [], []⟩

def c2WitnessSpec : DagSpec :=
  ⟨some "x", some "d", some "@daily", none, some [taskA, taskBnil, taskC], [], []⟩

/-! ## The claims -/

/-- C1 (amended): for every specification whose dependency graph — taking,
for each declared task_id, the dependencies list of its *last* declaration,
as the adjacency dict built by `_has_circular_dependencies` does — contains
a directed cycle of any length ≥ 1 (self-loops included),
`validate_structure` reports exactly one error equal to the
circular-dependency finding (kind `dependency`, message "Circular
dependency detected in task graph"), regardless of how many distinct cycles
the graph contains. -/
theorem cycle_in_dict_graph_reports_one_circular_error (v₀ : VState) (spec : DagSpec)
    (h : ∃ u, Relation.TransGen (codeEdge (buildGraph (spec.tasks.getD []))) u u) :
    (validateStructure v₀ (some spec)).1.errors.countP
      (fun f => f == circularFinding) = 1 := by
  rw [validateStructure_some]
  dsimp only
  rw [structErrors_countCirc]
  rw [if_pos ((hasCircular_iff _).mpr h)]

theorem cycle_in_dict_graph_reports_one_circular_error_witness :
    (validateStructure ⟨[], []⟩ (some c1WitnessSpec)).1.errors.countP
      (fun f => f == circularFinding) = 1 := by
  have e1 : codeEdge (buildGraph (c1WitnessSpec.tasks.getD [])) "a" "b" := by
    unfold codeEdge; decide
  have e2 : codeEdge (buildGraph (c1WitnessSpec.tasks.getD [])) "b" "a" := by
    unfold codeEdge; decide
  exact cycle_in_dict_graph_reports_one_circular_error ⟨[], []⟩ c1WitnessSpec
    ⟨"a", Relation.TransGen.head e1 (Relation.TransGen.single e2)⟩

/-- C1 counterexample: the claim as stated (edges = *each* task's declared
dependencies list) fails when a task_id is declared twice: in
`c1CexTasks`, the first declaration of `a` depends on `b` and `b` depends
on `a`, so the claim's graph has the cycle `a → b → a`; but the adjacency
dict keeps only the second declaration of `a` (no dependencies), so
`validate_structure` emits no circular-dependency error at all. -/
theorem duplicate_task_id_cycle_missed :
    (∃ u, Relation.TransGen (specEdge c1CexTasks) u u) ∧
      (validateStructure ⟨[], []⟩ (some c1CexSpec)).1.errors.countP
        (fun f => f == circularFinding) = 0 := by
  constructor
  · have e1 : specEdge c1CexTasks "a" "b" := ⟨taskA, by decide, rfl, by decide⟩
    have e2 : specEdge c1CexTasks "b" "a" := ⟨taskB, by decide, rfl, by decide⟩
    exact ⟨"a", Relation.TransGen.head e1 (Relation.TransGen.single e2)⟩
  · decide

/-- C2: for every specification whose dependency graph (nodes = task_ids,
edges = each task's declared dependencies list) is acyclic,
`validate_structure` never emits the circular-dependency error — dangling
dependency entries cannot seed a false cycle. -/
theorem acyclic_graph_reports_no_circular_error (v₀ : VState) (spec : DagSpec)
    (h : ∀ u, ¬ Relation.TransGen (specEdge (spec.tasks.getD [])) u u) :
    (validateStructure v₀ (some spec)).1.errors.countP
      (fun f => f == circularFinding) = 0 := by
  rw [validateStructure_some]
  dsimp only
  rw [structErrors_countCirc]
  have hn : ¬ hasCircularDependencies (spec.tasks.getD []) = true := by
    intro htrue
    obtain ⟨u, hcyc⟩ := hasCircular_sound _ htrue
    exact h u (Relation.TransGen.mono (fun x y hxy => codeEdge_sub_specEdge _ x y hxy) hcyc)
  rw [if_neg hn]

theorem acyclic_graph_reports_no_circular_error_witness :
    (validateStructure ⟨[], []⟩ (some c2WitnessSpec)).1.errors.countP
      (fun f => f == circularFinding) = 0 :=
  acyclic_graph_reports_no_circular_error ⟨[], []⟩ c2WitnessSpec
    (acyclicOfRank _ (fun s => if s = "a" ∨ s = "c" then 1 else 0) (by
      intro x y hxy
      obtain ⟨t, ht, htid, hdep⟩ := hxy
      have ht' : t = taskA ∨ t = taskBnil ∨ t = taskC := by
        simpa [c2WitnessSpec] using ht
      rcases ht' with rfl | rfl | rfl
      · have hx : "a" = x := by simpa [taskA] using htid
        have hy : y = "b" := by simpa [taskA] using hdep
        subst hx; subst hy; decide
      · simp [taskBnil] at hdep
      · have hx : "c" = x := by simpa [taskC] using htid
        have hy : y = "zzz" := by simpa [taskC] using hdep
        subst hx; subst hy; decide))

/-- C3: for every task that has a task_id, and for every entry of its
dependencies list that is not among the declared task_ids,
`validate_structure` reports exactly one `dependency` error stating that
the task depends on a non-existent task — one error per dangling reference
occurrence, in order, and no other error of that shape. -/
theorem dangling_reference_errors_exact (v₀ : VState) (spec : DagSpec) :
    (validateStructure v₀ (some spec)).1.errors.filter isNonExistShaped =
      (danglingOccs (spec.tasks.getD [])).map (fun p => depNonExistFinding p.1 p.2) := by
  rw [validateStructure_some]
  dsimp only
  unfold structErrors
  repeat rw [List.filter_append]
  rw [depsErrors_filter]
  have h1 : (reqFieldsErrors spec).filter isNonExistShaped = [] := by
    rw [List.filter_eq_nil_iff]
    intro f hf
    simp [isNonExistShaped_false_of_kind f (by rw [reqFieldsErrors_shape spec f hf]; decide)]
  have h2 : (dagIdErrors spec.dag_id).filter isNonExistShaped = [] := by
    rw [List.filter_eq_nil_iff]
    intro f hf
    simp [isNonExistShaped_false_of_kind f (by rw [(dagIdErrors_shape _ f hf).1]; decide)]
  have h3 : (startDateErrors spec.start_date).filter isNonExistShaped = [] := by
    rw [List.filter_eq_nil_iff]
    intro f hf
    obtain ⟨s, rfl⟩ := startDateErrors_shape _ f hf
    have hk : (startDateInvalidFinding s).kind ≠ "dependency" := by
      simp [startDateInvalidFinding]
    simp [isNonExistShaped_false_of_kind _ hk]
  have h4 : (tasksErrors (spec.tasks.getD [])).filter isNonExistShaped = [] := by
    rw [List.filter_eq_nil_iff]
    intro f hf
    simp [isNonExistShaped_false_of_kind f (tasksErrors_shape _ f hf).1]
  have h5 : (connsErrors spec.connections).filter isNonExistShaped = [] := by
    rw [List.filter_eq_nil_iff]
    intro f hf
    rcases (connsErrors_shape _ f hf).1 with h | h <;>
      simp [isNonExistShaped_false_of_kind f (by rw [h]; decide)]
  have h6 : (varsErrors spec.variables').filter isNonExistShaped = [] := by
    rw [List.filter_eq_nil_iff]
    intro f hf
    simp [isNonExistShaped_false_of_kind f (by rw [(varsErrors_shape _ f hf).1]; decide)]
  rw [h1, h2, h3, h4, h5, h6]
  simp

/-- C4: for every input to `validate_syntax` and `validate_structure`, the
returned result's `valid` flag equals "the error sequence is empty"; the
warning sequence never influences it. -/
theorem valid_iff_no_errors (v₀ : VState) (code : String) (pr : ParseOutcome)
    (ds : Option DagSpec) :
    (validateSyntaxCall v₀ code pr).1.valid
        = (validateSyntaxCall v₀ code pr).1.errors.isEmpty ∧
      (validateStructure v₀ ds).1.valid = (validateStructure v₀ ds).1.errors.isEmpty := by
  constructor
  · unfold validateSyntaxCall
    split_ifs
    · rfl
    · cases pr <;> rfl
  · cases ds <;> rfl

/-- C5: for every source text that is empty or whitespace-only,
`validate_syntax` returns an invalid result with exactly one error of kind
`syntax` and line 0 and an empty warning list — independently of the parse
outcome, so neither the parser nor the structural pattern scan contributes
anything. -/
theorem empty_source_single_syntax_error (v₀ : VState) (code : String) (pr : ParseOutcome)
    (h : pyStrip code = "") :
    (validateSyntaxCall v₀ code pr).1 =
      ⟨false, [⟨"syntax", none, "DAG code is empty", some 0, none⟩], []⟩ := by
  unfold validateSyntaxCall
  rw [h]
  simp [buildResult, appendError, emptyCodeFinding]

theorem empty_source_single_syntax_error_witness :
    (validateSyntaxCall ⟨[], []⟩ " \n\t " (ParseOutcome.ok ⟨true, true, true, true⟩)).1 =
      ⟨false, [⟨"syntax", none, "DAG code is empty", some 0, none⟩], []⟩ :=
  empty_source_single_syntax_error ⟨[], []⟩ " \n\t " (ParseOutcome.ok ⟨true, true, true, true⟩)
    (by decide)

/-- C6: for every empty or absent specification, `validate_structure`
returns exactly one error, of kind `structure` and field `root`, and no
warnings — it returns immediately and no sub-check appends anything. -/
theorem empty_spec_single_root_error (v₀ : VState) :
    (validateStructure v₀ none).1 =
      ⟨false, [⟨"structure", some "root", "DAG specification is empty", none, none⟩], []⟩ :=
  rfl

/-- C8: `validate_structure` and `validate_syntax` are stateless across
calls and idempotent: the returned result does not depend on the incoming
accumulator state (which is reset at the start of every call), so two
calls on the same unmodified input — with any calls in between — return
identical results. -/
theorem validator_stateless_and_idempotent (v₁ v₂ : VState) (ds : Option DagSpec)
    (code : String) (pr : ParseOutcome) :
    (validateStructure v₁ ds).1 = (validateStructure v₂ ds).1 ∧
      (validateStructure (validateStructure v₁ ds).2 ds).1 = (validateStructure v₁ ds).1 ∧
      (validateSyntaxCall v₁ code pr).1 = (validateSyntaxCall v₂ code pr).1 :=
  ⟨rfl, rfl, rfl⟩

/-- Everything outside the start_date sub-check contributes no error of
kind `format` with field `start_date`. -/
theorem structErrors_countStart (spec : DagSpec) :
    (structErrors spec).countP
        (fun f => f.kind == "format" && f.field == some "start_date") =
      (startDateErrors spec.start_date).countP
        (fun f => f.kind == "format" && f.field == some "start_date") := by
  unfold structErrors
  repeat rw [List.countP_append]
  have h1 : (reqFieldsErrors spec).countP
      (fun f => f.kind == "format" && f.field == some "start_date") = 0 :=
    List.countP_eq_zero.mpr (fun f hf => by
      simp [pStart_false_of_kind f (by rw [reqFieldsErrors_shape spec f hf]; decide)])
  have h2 : (dagIdErrors spec.dag_id).countP
      (fun f => f.kind == "format" && f.field == some "start_date") = 0 :=
    List.countP_eq_zero.mpr (fun f hf => by
      simp [pStart_false_of_field f (by rw [(dagIdErrors_shape _ f hf).2]; decide)])
  have h4 : (tasksErrors (spec.tasks.getD [])).countP
      (fun f => f.kind == "format" && f.field == some "start_date") = 0 :=
    List.countP_eq_zero.mpr (fun f hf => by
      simp [pStart_false_of_field f (tasksErrors_shape _ f hf).2.1])
  have h5 : (connsErrors spec.connections).countP
      (fun f => f.kind == "format" && f.field == some "start_date") = 0 :=
    List.countP_eq_zero.mpr (fun f hf => by
      rcases (connsErrors_shape _ f hf).1 with h | h <;>
        simp [pStart_false_of_kind f (by rw [h]; decide)])
  have h6 : (varsErrors spec.variables').countP
      (fun f => f.kind == "format" && f.field == some "start_date") = 0 :=
    List.countP_eq_zero.mpr (fun f hf => by
      simp [pStart_false_of_kind f (by rw [(varsErrors_shape _ f hf).1]; decide)])
  have h7 : (depsErrors (spec.tasks.getD [])).countP
      (fun f => f.kind == "format" && f.field == some "start_date") = 0 :=
    List.countP_eq_zero.mpr (fun f hf => by
      simp [pStart_false_of_kind f (by rw [(depsErrors_shape _ f hf).1]; decide)])
  rw [h1, h2, h4, h5, h6, h7]
  omega

/-- The specification's "strict date-only" format.  Modelled from the
spec: a string passes exactly when it is a single ISO-8601 calendar date
`YYYY-MM-DD` — four digits, dash, two digits, dash, two digits, with a
real month and day — and nothing else. -/
def specStrictDateOnly (s : String) : Bool :=
  match s.data with
  | [y1, y2, y3, y4, '-', m1, m2, '-', d1, d2] =>
    ([y1, y2, y3, y4, m1, m2, d1, d2].all Char.isDigit) &&
    (let y := ((digitVal y1 * 10 + digitVal y2) * 10 + digitVal y3) * 10 + digitVal y4
     let m := digitVal m1 * 10 + digitVal m2
     let d := digitVal d1 * 10 + digitVal d2
     1 ≤ y && 1 ≤ m && m ≤ 12 && 1 ≤ d && d ≤ daysInMonth y m)
  | _ => false

def c7CexSpec : DagSpec :=
  ⟨some "x", some "d", some "@daily", some "2024-01-01T12:00:00", some [taskBnil], [], []⟩

/-- C7 counterexample: the full datetime string `2024-01-01T12:00:00` is
not a strict date-only string, yet `validate_structure` emits no `format`
error on `start_date` for it, because `datetime.fromisoformat` accepts
datetime strings. -/
theorem start_date_datetime_accepted :
    specStrictDateOnly "2024-01-01T12:00:00" = false ∧
      (validateStructure ⟨[], []⟩ (some c7CexSpec)).1.errors.countP
        (fun f => f.kind == "format" && f.field == some "start_date") = 0 := by
  constructor
  · decide
  · decide

/-- Every strict `YYYY-MM-DD` calendar date is accepted by
`datetime.fromisoformat` (on every CPython version, and by its model
here). -/
theorem fromisoformatOk_of_strict (s : String) (h : specStrictDateOnly s = true) :
    fromisoformatOk s = true := by
  unfold specStrictDateOnly at h
  unfold fromisoformatOk
  split at h
  · rename_i y1 y2 y3 y4 m1 m2 d1 d2 heq
    rw [heq]
    simpa using h
  · simp at h

/-- C7 (amended): for every specification with a present `start_date`
string, `validate_structure` emits at most one error of kind `format` on
the `start_date` field per call, and emits none whenever the string is a
valid strict `YYYY-MM-DD` ISO-8601 calendar date.  The original claim's
converse — an error for every string that is *not* strictly date-only —
is false: `datetime.fromisoformat` accepts more than date-only strings
(full datetimes on every runtime, and further formats depending on the
unpinned Python version), and accepted strings produce no error. -/
theorem start_date_no_error_on_strict_date (v₀ : VState) (spec : DagSpec) (s : String)
    (hs : spec.start_date = some s) :
    (validateStructure v₀ (some spec)).1.errors.countP
        (fun f => f.kind == "format" && f.field == some "start_date") ≤ 1 ∧
      (specStrictDateOnly s = true →
        (validateStructure v₀ (some spec)).1.errors.countP
          (fun f => f.kind == "format" && f.field == some "start_date") = 0) := by
  rw [validateStructure_some]
  dsimp only
  rw [structErrors_countStart]
  constructor
  · have hlen : ∀ l : List Finding, l.length ≤ 1 →
        l.countP (fun f => f.kind == "format" && f.field == some "start_date") ≤ 1 :=
      fun l hl => le_trans (List.countP_le_length _) hl
    unfold startDateErrors
    rw [hs]
    dsimp only
    split_ifs <;> exact hlen _ (by simp)
  · intro hstrict
    have hok : fromisoformatOk s = true := fromisoformatOk_of_strict s hstrict
    have hne : s ≠ "" := by
      intro he
      rw [he] at hstrict
      exact absurd hstrict (by decide)
    unfold startDateErrors
    rw [hs]
    dsimp only
    rw [if_neg hne, if_pos hok]
    simp

def c7DateOnlySpec : DagSpec :=
  ⟨some "x", some "d", some "@daily", some "2024-01-01", some [taskBnil], [], []⟩

theorem start_date_no_error_on_strict_date_witness :
    (validateStructure ⟨[], []⟩ (some c7DateOnlySpec)).1.errors.countP
      (fun f => f.kind == "format" && f.field == some "start_date") = 0 :=
  (start_date_no_error_on_strict_date ⟨[], []⟩ c7DateOnlySpec "2024-01-01" rfl).2 (by decide)

/-- C9 (amended): the `params` warnings of one `validate_structure` call
are exactly one warning per task that has a `task_id`, a truthy
`operator_type` and an empty or absent `params` mapping — the task's
`parameters` key is never consulted. -/
theorem params_warning_iff_params_key_falsy (v₀ : VState) (spec : DagSpec) :
    (validateStructure v₀ (some spec)).1.warnings.filter (fun f => f.kind == "params") =
      (spec.tasks.getD []).enum.filterMap (fun p =>
        match p.2.task_id with
        | none => none
        | some tid =>
          if opTruthy p.2 && paramsFalsy p.2 then some (taskParamsFinding p.1 tid)
          else none) := by
  rw [validateStructure_some]
  dsimp only
  unfold structWarnings
  repeat rw [List.filter_append]
  have h1 : (reqFieldsWarnings spec).filter (fun f => f.kind == "params") = [] := by
    rw [List.filter_eq_nil_iff]
    intro f hf
    rw [reqFieldsWarnings_shape spec f hf]
    simp [scheduleNoneFinding]
  have h2 : (dagIdWarnings spec.dag_id).filter (fun f => f.kind == "params") = [] := by
    rw [List.filter_eq_nil_iff]
    intro f hf
    obtain ⟨s, rfl⟩ := dagIdWarnings_shape _ f hf
    simp [dagIdLowercaseFinding]
  have h3 : (scheduleWarnings spec.schedule).filter (fun f => f.kind == "params") = [] := by
    rw [List.filter_eq_nil_iff]
    intro f hf
    obtain ⟨s, rfl⟩ := scheduleWarnings_shape _ f hf
    simp [scheduleCronFinding]
  have h4 : (startDateWarnings spec.start_date).filter (fun f => f.kind == "params") = [] := by
    rw [List.filter_eq_nil_iff]
    intro f hf
    rw [startDateWarnings_shape _ f hf]
    simp [startDateMissingFinding]
  have h6 : (varsWarnings spec.variables').filter (fun f => f.kind == "params") = [] := by
    rw [List.filter_eq_nil_iff]
    intro f hf
    obtain ⟨k, rfl⟩ := varsWarnings_shape _ f hf
    simp [varDupFinding]
  rw [h1, h2, h3, h4, h6, tasksWarnings_filter]
  simp

def c9Task : Task := ⟨some "t1", some "BashOperator", none, some [("x", "y")], []⟩

def c9CexSpec : DagSpec :=
  ⟨some "x", some "d", some "@daily", some "2024-01-01", some [c9Task], [], []⟩

/-- C9 counterexample: `c9Task` supplies a non-empty mapping under the
`parameters` key (and none under `params`), so by the claim it should get
no `params` warning; the code reads only `params` and warns anyway. -/
theorem parameters_key_not_consulted :
    c9Task.parameters = some [("x", "y")] ∧
      ((validateStructure ⟨[], []⟩ (some c9CexSpec)).1.warnings.filter
        (fun f => f.kind == "params")).length = 1 := by
  constructor
  · rfl
  · decide

theorem reqFieldsErrors_empty_dag_id (spec : DagSpec) (h : spec.dag_id = some "") :
    ∀ f ∈ reqFieldsErrors spec, f.field ≠ some "dag_id" := by
  intro f hf
  unfold reqFieldsErrors at hf
  rw [h] at hf
  rcases List.mem_append.mp hf with h12 | h3
  · rcases List.mem_append.mp h12 with h1 | h2
    · simp at h1
    · rw [mem_if_singleton h2]
      simp [requiredFieldFinding]
  · rw [mem_if_singleton h3]
    simp [requiredFieldFinding]

/-- C10: if a specification maps its dag id field to the empty string,
`validate_structure` emits no finding (error or warning) about the
`dag_id` field at all: the required-field check sees a present, non-null
value, and the id-format check returns immediately on a falsy id. -/
theorem empty_dag_id_no_findings (v₀ : VState) (spec : DagSpec) (h : spec.dag_id = some "") :
    (∀ f ∈ (validateStructure v₀ (some spec)).1.errors, f.field ≠ some "dag_id") ∧
      (∀ f ∈ (validateStructure v₀ (some spec)).1.warnings, f.field ≠ some "dag_id") := by
  rw [validateStructure_some]
  dsimp only
  constructor
  · intro f hf
    unfold structErrors at hf
    rcases List.mem_append.mp hf with h6 | hdeps
    · rcases List.mem_append.mp h6 with h5 | hvars
      · rcases List.mem_append.mp h5 with h4 | hconns
        · rcases List.mem_append.mp h4 with h3 | htasks
          · rcases List.mem_append.mp h3 with h2 | hsd
            · rcases List.mem_append.mp h2 with hreq | hdag
              · exact reqFieldsErrors_empty_dag_id spec h f hreq
              · rw [h] at hdag
                simp [dagIdErrors] at hdag
            · obtain ⟨s, rfl⟩ := startDateErrors_shape _ f hsd
              simp [startDateInvalidFinding]
          · exact (tasksErrors_shape _ f htasks).2.2
        · exact (connsErrors_shape _ f hconns).2
      · exact (varsErrors_shape _ f hvars).2
    · rw [(depsErrors_shape _ f hdeps).2]
      simp
  · intro f hf
    unfold structWarnings at hf
    rcases List.mem_append.mp hf with h5 | hvars
    · rcases List.mem_append.mp h5 with h4 | htasks
      · rcases List.mem_append.mp h4 with h3 | hsd
        · rcases List.mem_append.mp h3 with h2 | hsched
          · rcases List.mem_append.mp h2 with hreq | hdag
            · rw [reqFieldsWarnings_shape spec f hreq]
              simp [scheduleNoneFinding]
            · rw [h] at hdag
              simp [dagIdWarnings] at hdag
          · obtain ⟨s, rfl⟩ := scheduleWarnings_shape _ f hsched
            simp [scheduleCronFinding]
        · rw [startDateWarnings_shape _ f hsd]
          simp [startDateMissingFinding]
      · rcases tasksWarnings_shape _ f htasks with ⟨j, op, rfl⟩ | ⟨j, tid, rfl⟩
        · exact tasksFieldNeSome j "].operator_type" _ (by decide)
        · exact tasksFieldNeSome j "].params" _ (by decide)
    · obtain ⟨k, rfl⟩ := varsWarnings_shape _ f hvars
      simp [varDupFinding]

def c10Spec : DagSpec :=
  ⟨some "", some "d", some "@daily", none, some [taskBnil], [], []⟩

theorem empty_dag_id_no_findings_witness :
    ((validateStructure ⟨[], []⟩ (some c10Spec)).1.errors ++
        (validateStructure ⟨[], []⟩ (some c10Spec)).1.warnings).all
      (fun f => f.field != some "dag_id") = true := by
  have h := empty_dag_id_no_findings ⟨[], []⟩ c10Spec rfl
  rw [List.all_eq_true]
  intro f hf
  rcases List.mem_append.mp hf with h1 | h2
  · simpa [bne_iff_ne] using h.1 f h1
  · simpa [bne_iff_ne] using h.2 f h2

end DagVal
